import Mathlib

/-!
Shallow embedding of the storage-layer core of the cmu15-445-2017 repository:
the LRU replacer (src/buffer/lru_replacer.cpp), the extendible hash table
(src/hash/extendible_hash.cpp), the buffer pool manager
(src/buffer/buffer_pool_manager.cpp), and the B+tree with its leaf and
internal pages (src/index/b_plus_tree.cpp, src/page/b_plus_tree_leaf_page.cpp,
b_plus_tree_internal_page.cpp).

Machine integers are modelled as `Int` (`page_id_t`, pin counts, sizes that the
source stores in `int`) or `Nat` (`size_t` quantities); `INVALID_PAGE_ID = -1`.
Keys are `Int` (the `GenericKey` instantiations are fixed-width integers) and
the three-way `GenericComparator` is `intCmp`, returning -1, 0 or 1.
Stateful C++ code becomes explicit state passing; fallible paths (assert
failures, `throw`, fuel exhaustion of modelled recursion) return `Option`.
-/

namespace CmuDb

/-- `page_id_t`: a 32-bit integer page identifier in the source. -/
abbrev PageId := Int

/-- INVALID_PAGE_ID sentinel (-1). -/
def INVALID_PAGE_ID : PageId := -1

/-- The three-way `GenericComparator` on integer keys: -1 if `a < b`,
1 if `a > b`, 0 if equal. -/
def intCmp (a b : Int) : Int :=
  if a < b then -1 else if b < a then 1 else 0

/-! ## LRU replacer (src/buffer/lru_replacer.cpp)

`LRUReplacer<T>` keeps `list_ : std::list<T>`; head is the victim. -/

/-- State of `LRUReplacer<T>`: the `list_` member, head first. -/
structure LRUReplacer (T : Type) where
  list : List T
deriving Repr, DecidableEq

namespace LRUReplacer

variable {T : Type}

/-- The default-constructed replacer (empty `list_`). -/
def new : LRUReplacer T := ⟨[]⟩

/-- `LRUReplacer::Insert`: erase the first occurrence of `value` if present
(`find` + `erase`), then `emplace_back(value)`. -/
def Insert [BEq T] (r : LRUReplacer T) (value : T) : LRUReplacer T :=
  ⟨r.list.erase value ++ [value]⟩

/-- `LRUReplacer::Victim`: if `list_` is empty return false; otherwise pop the
front element into `value` and return true. -/
def Victim (r : LRUReplacer T) : Option T × LRUReplacer T :=
  match r.list with
  | [] => (none, r)
  | x :: xs => (some x, ⟨xs⟩)

/-- `LRUReplacer::Erase`: remove `value` if present, reporting success. -/
def Erase [BEq T] (r : LRUReplacer T) (value : T) : Bool × LRUReplacer T :=
  if r.list.contains value then (true, ⟨r.list.erase value⟩) else (false, r)

/-- `LRUReplacer::Size`: current length of `list_`. -/
def Size (r : LRUReplacer T) : Nat := r.list.length

end LRUReplacer

/-! ## Extendible hash table (src/hash/extendible_hash.cpp)

A `Bucket<K,V>` holds parallel vectors `items_` (capacity entries, default
initialised) and `exists_` (occupancy flags) plus `size_`/`capacity_` and
`local_depth_`.  We model the zip of the two vectors as a list of `Slot`s;
`capacity_` is the length of that list.  `ExtendibleHash<K,V>` holds
`buckets_table_ : vector<shared_ptr<Bucket>>`; shared ownership is modelled
as an arena `buckets` of bucket states with the directory holding arena
indices, so C++ pointer equality of slots becomes index equality. -/

/-- One bucket slot: the `exists_[i]` flag zipped with the `items_[i]` pair. -/
structure Slot (K V : Type) where
  occ : Bool
  key : K
  val : V
deriving Repr, DecidableEq

/-- State of `Bucket<K,V>`.  `bsize` is the `size_` member (a `size_t`);
`slots.length` is `capacity_`. -/
structure Bucket (K V : Type) where
  localDepth : Int
  bsize : Nat
  slots : List (Slot K V)
deriving Repr, DecidableEq

namespace Bucket

variable {K V : Type}

/-- `Bucket(size, local_depth)`: `capacity` default-constructed empty slots
(`items_.resize(size)`, all `exists_` false, `size_ = 0`). -/
def new [Inhabited K] [Inhabited V] (capacity : Nat) (localDepth : Int) :
    Bucket K V :=
  ⟨localDepth, 0, List.replicate capacity ⟨false, default, default⟩⟩

instance [Inhabited K] [Inhabited V] : Inhabited (Slot K V) :=
  ⟨⟨false, default, default⟩⟩

instance [Inhabited K] [Inhabited V] : Inhabited (Bucket K V) :=
  ⟨Bucket.new 0 0⟩

/-- `Bucket::Full`: `size_ == capacity_`. -/
def Full (b : Bucket K V) : Bool := b.bsize == b.slots.length

/-- `Bucket::Insert`: store the pair in the first slot with `!exists_[i]`
(no overwrite of an existing equal key); no-op if every slot is occupied. -/
def Insert (b : Bucket K V) (key : K) (value : V) : Bucket K V :=
  match b.slots.findIdx? (fun s => !s.occ) with
  | none => b
  | some i =>
    { b with bsize := b.bsize + 1, slots := b.slots.set i ⟨true, key, value⟩ }

/-- `Bucket::Find`: scan slots in order; the first slot with `exists_[i]` and
`items_[i].first == key` supplies the value. -/
def Find [BEq K] (b : Bucket K V) (key : K) : Option V :=
  (b.slots.find? (fun s => s.occ && s.key == key)).map (·.val)

/-- `Bucket::Remove`: scan `items_` for the first slot whose key equals `key`
regardless of its `exists_` flag (the source does not test `exists_` here),
then clear that flag and decrement `size_` (a `size_t`, so wrapping mod 2^64). -/
def Remove [BEq K] [Inhabited K] [Inhabited V] (b : Bucket K V) (key : K) :
    Bool × Bucket K V :=
  match b.slots.findIdx? (fun s => s.key == key) with
  | none => (false, b)
  | some i =>
    let s := b.slots.getD i default
    let newSize := (b.bsize + (2 ^ 64 - 1)) % 2 ^ 64
    (true, { b with bsize := newSize, slots := b.slots.set i { s with occ := false } })

/-- `Bucket::GetItems`: the pairs of occupied slots, in slot order. -/
def GetItems (b : Bucket K V) : List (K × V) :=
  (b.slots.filter (·.occ)).map (fun s => (s.key, s.val))

/-- `Bucket::Clear`: `size_ = 0` and every `exists_` flag false (stale pairs
remain in `items_`). -/
def Clear (b : Bucket K V) : Bucket K V :=
  { b with bsize := 0, slots := b.slots.map (fun s => { s with occ := false }) }

end Bucket

/-- State of `ExtendibleHash<K,V>`: `globalDepth`/`numBuckets` are the atomic
int members, `bucketCapacity` is `bucket_capacity_`, `buckets` is the arena of

bucket states (shared_ptr targets), `dir` is `buckets_table_` holding arena
indices, and `hashFn` models `std::hash<K>`. -/
structure ExtendibleHash (K V : Type) where
  globalDepth : Int
  numBuckets : Int
  bucketCapacity : Nat
  buckets : List (Bucket K V)
  dir : List Nat
  hashFn : K → Nat

namespace ExtendibleHash

variable {K V : Type} [BEq K] [Inhabited K] [Inhabited V]

/-- `ExtendibleHash(size)`: global depth 0, one bucket of the given capacity
with local depth 0, directory of length one pointing at it. -/
def new (hashFn : K → Nat) (size : Nat) : ExtendibleHash K V :=
  ⟨0, 1, size, [Bucket.new size 0], [0], hashFn⟩

/-- `ExtendibleHash::HashKey`: `std::hash<K>()(key) % buckets_table_.size()`. -/
def HashKey (s : ExtendibleHash K V) (key : K) : Nat :=
  s.hashFn key % s.dir.length

/-- `ExtendibleHash::EntryAt`: `buckets_table_[index]`, dereferenced through
the arena. -/
def EntryAt (s : ExtendibleHash K V) (index : Nat) : Bucket K V :=
  s.buckets.getD (s.dir.getD index 0) default

/-- Replace the bucket shared by directory slot `index` (mutation through the
`shared_ptr`): update the arena entry it points at. -/
def setBucketAt (s : ExtendibleHash K V) (index : Nat) (b : Bucket K V) :
    ExtendibleHash K V :=
  { s with buckets := s.buckets.set (s.dir.getD index 0) b }

/-- `ExtendibleHash::Find`: route to `EntryAt(HashKey(key))` and scan. -/
def Find (s : ExtendibleHash K V) (key : K) : Option V :=
  (s.EntryAt (s.HashKey key)).Find key

/-- `ExtendibleHash::Remove`: route and remove in the bucket. -/
def Remove (s : ExtendibleHash K V) (key : K) : Bool × ExtendibleHash K V :=
  let index := s.HashKey key
  let (ok, b') := (s.EntryAt index).Remove key
  (ok, s.setBucketAt index b')

/-- Step 1 of the split phase of `ExtendibleHash::Insert` (source lines
180-189): when the overflowing bucket's local depth equals the global depth,
increment `global_depth_` and double `buckets_table_` by appending a copy of
every existing slot in order (`buckets_table_[i] = buckets_table_[i -
origin_size]`); otherwise leave the state unchanged. -/
def doubleDirIfNeeded (s : ExtendibleHash K V) (index : Nat) :
    ExtendibleHash K V :=
  if (s.EntryAt index).localDepth == s.globalDepth then
    { s with globalDepth := s.globalDepth + 1, dir := s.dir ++ s.dir }
  else s

/-- The split phase of `ExtendibleHash::Insert` (source lines 180-205), entered
when the routed bucket is full.  Steps, in source order: conditionally double
the directory (`doubleDirIfNeeded`); increment the overflowing bucket's local
depth; collect (in increasing order) all directory indices sharing that
bucket; snapshot its items and clear it; allocate a new empty bucket with the
same (incremented) local depth and bump `num_buckets_`; reassign the upper
half of the collected indices to the new bucket.  Returns the resulting state
together with the snapshotted items, which the caller reinserts. -/
def splitStep (s : ExtendibleHash K V) (index : Nat) :
    ExtendibleHash K V × List (K × V) :=
  let s1 := s.doubleDirIfNeeded index
  let bid := s1.dir.getD index 0
  let b1 := s1.buckets.getD bid default
  let b2 := { b1 with localDepth := b1.localDepth + 1 }
  let s2 := { s1 with buckets := s1.buckets.set bid b2 }
  let idxs := (List.range s2.dir.length).filter (fun i => s2.dir.getD i 0 == bid)
  let items := b2.GetItems
  let s3 := { s2 with buckets := s2.buckets.set bid b2.Clear }
  let newBid := s3.buckets.length
  let s4 := { s3 with
    buckets := s3.buckets ++ [Bucket.new s.bucketCapacity b2.localDepth]
    numBuckets := s3.numBuckets + 1 }
  let upper := idxs.drop (idxs.length / 2)
  let s5 := { s4 with dir := upper.foldl (fun d i => d.set i newBid) s4.dir }
  (s5, items)

/-- `ExtendibleHash::Insert` with explicit fuel for the recursive reinsertion
after a split (the C++ recursion is bounded by the hash bit-width; `none`
means the fuel ran out).  The full-bucket branch performs the split step and
then reinserts each snapshotted pair, and finally the triggering pair, each
through a fresh call to `Insert`. -/
def insertFuel : Nat → ExtendibleHash K V → K → V →
    Option (ExtendibleHash K V)
  | 0, _, _, _ => none
  | fuel + 1, s, key, value =>
    let index := s.HashKey key
    if (s.EntryAt index).Full then
      let pr := s.splitStep index
      match pr.2.foldlM (fun st kv => insertFuel fuel st kv.1 kv.2) pr.1 with
      | none => none
      | some st => insertFuel fuel st key value
    else
      some (s.setBucketAt index ((s.EntryAt index).Insert key value))

end ExtendibleHash

/-! ## Buffer pool manager (src/buffer/buffer_pool_manager.cpp)

A frame (`Page` object in `pages_`) carries the resident page id, pin count,
dirty flag and the page bytes; the byte buffer `data_` is modelled by an
arbitrary payload type `D` and the disk file by a function from page ids to
payloads.  Frames are identified by their index in `pages_` (the C++ uses
`Page*` pointers into that array).  The page table is the
`ExtendibleHash<page_id_t, Page*>` of the source, instantiated at
`PageId → Nat` with `std::hash` of an integer modelled as its value
mod 2^64. -/

/-- One `Page` frame: `page_id_`, `pin_count_` (an `int`), `is_dirty_`, and
the `data_` buffer modelled by payload type `D`. -/
structure Page (D : Type) where
  pageId : PageId
  pinCount : Int
  isDirty : Bool
  data : D
deriving Repr, DecidableEq

/-- The external `DiskManager`: the page file (`store`), the next page id
handed out by `AllocatePage`, and the log of `DeallocatePage` invocations
(recorded so that theorems can observe whether deallocation happened). -/
structure DiskManager (D : Type) where
  store : PageId → D
  nextPageId : PageId
  deallocLog : List PageId

namespace DiskManager

variable {D : Type}

/-- `DiskManager::WritePage`: persist `data` as the bytes of page `pid`. -/
def WritePage (dm : DiskManager D) (pid : PageId) (data : D) : DiskManager D :=
  { dm with store := fun x => if x = pid then data else dm.store x }

/-- `DiskManager::ReadPage`: the current bytes of page `pid`. -/
def ReadPage (dm : DiskManager D) (pid : PageId) : D := dm.store pid

/-- `DiskManager::AllocatePage`: return `next_page_id_++`. -/
def AllocatePage (dm : DiskManager D) : PageId × DiskManager D :=
  (dm.nextPageId, { dm with nextPageId := dm.nextPageId + 1 })

/-- `DiskManager::DeallocatePage`: recorded in the log. -/
def DeallocatePage (dm : DiskManager D) (pid : PageId) : DiskManager D :=
  { dm with deallocLog := dm.deallocLog ++ [pid] }

end DiskManager

/-- `std::hash<page_id_t>` on a 64-bit platform: the integer cast to
`size_t`, i.e. its value mod 2^64. -/
def pageIdHash (pid : PageId) : Nat := (pid % (2 : Int) ^ 64).toNat

/-- State of `BufferPoolManager`: the frame array `pages_` (frame index =
array position), the page table mapping page id to frame index, the replacer
over frame indices, the free list of frame indices, and the disk manager. -/
structure BufferPoolManager (D : Type) where
  pages : List (Page D)
  pageTable : ExtendibleHash PageId Nat
  replacer : LRUReplacer Nat
  freeList : List Nat
  disk : DiskManager D

namespace BufferPoolManager

variable {D : Type} [Inhabited D]

/-- The `BufferPoolManager` constructor: `pool_size` default-constructed
frames (page id INVALID, pin count 0, clean), all of them on the free list,
an empty replacer, and a fresh page table with `BUCKET_SIZE = bucketSize`
slots per bucket. -/
def new (poolSize bucketSize : Nat) (disk : DiskManager D) :
    BufferPoolManager D where
  pages := List.replicate poolSize ⟨INVALID_PAGE_ID, 0, false, default⟩
  pageTable := ExtendibleHash.new pageIdHash bucketSize
  replacer := LRUReplacer.new
  freeList := List.range poolSize
  disk := disk

/-- Pick a replacement frame: the front of the free list if non-empty,
otherwise the replacer's victim; `none` when neither supplies one. -/
def pickVictim (bp : BufferPoolManager D) :
    Option (Nat × BufferPoolManager D) :=
  match bp.freeList with
  | f :: rest => some (f, { bp with freeList := rest })
  | [] =>
    match bp.replacer.Victim with
    | (some f, r') => some (f, { bp with replacer := r' })
    | (none, _) => none

/-- `BufferPoolManager::FetchPage`.  Result: `none` models the `assert`
failing, a dangling frame index, or page-table insertion running out of fuel
(none of which occur in real runs); `some (none, bp)` is the C++ `nullptr`
return (all frames pinned); `some (some f, bp')` returns frame `f` pinned.
On a page-table hit the pin count is incremented and the frame is NOT erased
from the replacer; on a miss the victim (free list first, else replacer) is
written back if dirty, its old page-table entry removed, the new entry
inserted, metadata set to `(page_id, pin 1, clean)` and the page read from
disk. -/
def FetchPage (fuel : Nat) (bp : BufferPoolManager D) (pageId : PageId) :
    Option (Option Nat × BufferPoolManager D) :=
  if pageId == INVALID_PAGE_ID then none
  else
    match bp.pageTable.Find pageId with
    | some f =>
      match bp.pages.get? f with
      | none => none
      | some p =>
        some (some f,
          { bp with pages := bp.pages.set f { p with pinCount := p.pinCount + 1 } })
    | none =>
      match bp.pickVictim with
      | none => some (none, bp)
      | some (f, bp1) =>
        match bp1.pages.get? f with
        | none => none
        | some p =>
          let disk1 := if p.isDirty then bp1.disk.WritePage p.pageId p.data
                       else bp1.disk
          let pt1 := if p.pageId != INVALID_PAGE_ID
                     then (bp1.pageTable.Remove p.pageId).2
                     else bp1.pageTable
          match pt1.insertFuel fuel pageId f with
          | none => none
          | some pt2 =>
            let p' : Page D :=
              ⟨pageId, 1, false, disk1.ReadPage pageId⟩
            some (some f,
              { bp1 with
                pages := bp1.pages.set f p'
                pageTable := pt2
                disk := disk1 })

/-- `BufferPoolManager::UnpinPage`: false if the page is not in the page
table or its pin count is already ≤ 0; otherwise decrement the pin count,
ASSIGN the dirty flag (`p->is_dirty_ = is_dirty`), and insert the frame into
the replacer exactly when the pin count reaches 0. -/
def UnpinPage (bp : BufferPoolManager D) (pageId : PageId) (isDirty : Bool) :
    Option (Bool × BufferPoolManager D) :=
  if pageId == INVALID_PAGE_ID then none
  else
    match bp.pageTable.Find pageId with
    | none => some (false, bp)
    | some f =>
      match bp.pages.get? f with
      | none => none
      | some p =>
        if p.pinCount ≤ 0 then some (false, bp)
        else
          let p' := { p with pinCount := p.pinCount - 1, isDirty := isDirty }
          let r' := if p.pinCount - 1 == 0 then bp.replacer.Insert f
                    else bp.replacer
          some (true, { bp with pages := bp.pages.set f p', replacer := r' })

/-- `BufferPoolManager::FlushPage`: false if not resident; otherwise write
the bytes to disk unconditionally (the dirty flag is not cleared). -/
def FlushPage (bp : BufferPoolManager D) (pageId : PageId) :
    Option (Bool × BufferPoolManager D) :=
  if pageId == INVALID_PAGE_ID then none
  else
    match bp.pageTable.Find pageId with
    | none => some (false, bp)
    | some f =>
      match bp.pages.get? f with
      | none => none
      | some p =>
        some (true, { bp with disk := bp.disk.WritePage pageId p.data })

/-- `BufferPoolManager::DeletePage`: false if the page is not resident or its
pin count is non-zero; otherwise remove the page-table entry, reset the frame
metadata, return the frame to the free list (the frame is NOT erased from the
replacer), and call `DiskManager::DeallocatePage`. -/
def DeletePage (bp : BufferPoolManager D) (pageId : PageId) :
    Option (Bool × BufferPoolManager D) :=
  if pageId == INVALID_PAGE_ID then none
  else
    match bp.pageTable.Find pageId with
    | none => some (false, bp)
    | some f =>
      match bp.pages.get? f with
      | none => none
      | some p =>
        if p.pinCount != 0 then some (false, bp)
        else
          let p' : Page D :=
            { p with
              pageId := INVALID_PAGE_ID
              pinCount := 0
              isDirty := false }
          some (true,
            { bp with
              pageTable := (bp.pageTable.Remove pageId).2
              pages := bp.pages.set f p'
              freeList := bp.freeList ++ [f]
              disk := bp.disk.DeallocatePage pageId })

/-- `BufferPoolManager::NewPage`: obtain a victim exactly as in `FetchPage`
(free list first, else replacer; `some (none, bp)` models the `nullptr`
return when all frames are pinned), write it back if dirty, purge its old
page-table entry, allocate a fresh page id from disk, install the frame with
pin count 1, zero the buffer (`ResetMemory`, modelled by `default`), and
register the new entry. -/
def NewPage (fuel : Nat) (bp : BufferPoolManager D) :
    Option (Option (PageId × Nat) × BufferPoolManager D) :=
  match bp.pickVictim with
  | none => some (none, bp)
  | some (f, bp1) =>
    match bp1.pages.get? f with
    | none => none
    | some p =>
      let disk1 := if p.isDirty then bp1.disk.WritePage p.pageId p.data
                   else bp1.disk
      let pt1 := if p.pageId != INVALID_PAGE_ID
                 then (bp1.pageTable.Remove p.pageId).2
                 else bp1.pageTable
      let (newId, disk2) := disk1.AllocatePage
      let p' : Page D := ⟨newId, 1, false, default⟩
      match pt1.insertFuel fuel newId f with
      | none => none
      | some pt2 =>
        some (some (newId, f),
          { bp1 with
            pages := bp1.pages.set f p'
            pageTable := pt2
            disk := disk2 })

/-- Sum of `pin_count_` over all frames of the pool. -/
def pinSum (bp : BufferPoolManager D) : Int :=
  (bp.pages.map (·.pinCount)).sum

end BufferPoolManager

/-! ## B+tree pages

Keys are `Int` (`GenericKey<8>` backed by a 64-bit integer), leaf values are
`Nat` (record ids), internal values are `PageId`.  A page's entry array is
modelled by the list of its first `size` (live) entries; `max_size` is kept
as a field.  `PAGE_SIZE` is the build parameter of the source (spec: "Fixed
size byte buffer (parameter PAGE_SIZE)"); the model instantiates it so that
`Init`'s computation `(PAGE_SIZE - header) / pair` yields `max_size = 4`,
the configuration used by the spec's boundary scenarios.  Leaf header: five
i32 fields plus `next_page_id` = 24 bytes; internal header: 20 bytes (source
comment); a (key, value) pair occupies 16 bytes. -/

/-- Model instantiation of the PAGE_SIZE build parameter. -/
def PAGE_SIZE : Nat := 88

/-- State of `BPlusTreeLeafPage`: header fields and the live prefix of the
(key, RID) array. -/
structure LeafPage where
  pageId : PageId
  parentPageId : PageId
  maxSize : Nat
  nextPageId : PageId
  entries : List (Int × Nat)
deriving Repr, DecidableEq

namespace LeafPage

/-- `BPlusTreeLeafPage::Init`: leaf type, size 0, ids set, next page INVALID,
`max_size = (PAGE_SIZE - sizeof(BPlusTreeLeafPage)) / sizeof(MappingType)`. -/
def Init (pageId parentId : PageId) : LeafPage :=
  ⟨pageId, parentId, (PAGE_SIZE - 24) / 16, INVALID_PAGE_ID, []⟩

/-- `GetSize` of the leaf (the live prefix length), as the `int` the source
uses. -/
def size (l : LeafPage) : Int := (l.entries.length : Int)

/-- Read `array[i]` for a (possibly negative) index computed by the source;
`none` when the access is outside the live prefix. -/
def entryAt? (l : LeafPage) (i : Int) : Option (Int × Nat) :=
  if i < 0 then none else l.entries.get? i.toNat

/-- `BPlusTreeLeafPage::KeyIndex`: the first index `i < size` with
`comparator(array[i].first, key) >= 0`, and -1 when there is none. -/
def KeyIndex (l : LeafPage) (key : Int) : Int :=
  match l.entries.findIdx? (fun e => decide (0 ≤ intCmp e.1 key)) with
  | some i => (i : Int)
  | none => -1

/-- `BPlusTreeLeafPage::KeyAt`: `array[index].first` (0 for an access outside
the live prefix, whose bytes the source leaves unspecified). -/
def KeyAt (l : LeafPage) (i : Int) : Int :=
  ((l.entryAt? i).map (·.1)).getD 0

/-- `BPlusTreeLeafPage::Insert`.  The source computes `index = KeyIndex(key)`,
then tests `comparator(array[index].first, key) == 0` — when `index = -1`
(every stored key is < `key`) this reads `array[-1]`, i.e. header bytes that
never compare equal to a key, modelled as a failed equality — returns early
on an equal key, appends at `array[size]` when `index == -1`, and otherwise
shifts `[index, size)` right and writes at `index`. -/
def Insert (l : LeafPage) (key : Int) (value : Nat) : LeafPage :=
  if l.entries.length == 0 then { l with entries := [(key, value)] }
  else
    let index := l.KeyIndex key
    let cmpAtIndex :=
      match l.entryAt? index with
      | some e => intCmp e.1 key
      | none => 1
    if cmpAtIndex == 0 then l
    else if index == -1 then { l with entries := l.entries ++ [(key, value)] }
    else
      { l with entries :=
          l.entries.take index.toNat ++ (key, value) :: l.entries.drop index.toNat }

/-- `BPlusTreeLeafPage::Lookup`: `index = KeyIndex(key)`; the value at `index`
if its key compares equal.  When `index = -1` the source reads `array[-1]`
(an out-of-bounds access, see claim C8's theorem about `KeyIndex`); the model
treats that header-overlay read as not equal to any key. -/
def Lookup (l : LeafPage) (key : Int) : Option Nat :=
  let index := l.KeyIndex key
  match l.entryAt? index with
  | some e => if intCmp e.1 key == 0 then some e.2 else none
  | none => none

/-- `BPlusTreeLeafPage::RemoveAndDeleteRecord`: if the key at
`KeyIndex(key)` compares equal, shift the entries after it left by one and
decrement the size (the `index = -1` out-of-bounds comparison is modelled as
not equal, as in `Lookup`). -/
def RemoveAndDeleteRecord (l : LeafPage) (key : Int) : LeafPage :=
  let index := l.KeyIndex key
  match l.entryAt? index with
  | some e =>
    if intCmp e.1 key == 0 then { l with entries := l.entries.eraseIdx index.toNat }
    else l
  | none => l

/-- `BPlusTreeLeafPage::CopyHalfFrom`: write the items at `array[0..n)` and
set the size to `n` (the recipient is a freshly initialised page). -/
def CopyHalfFrom (l : LeafPage) (items : List (Int × Nat)) : LeafPage :=
  { l with entries := items }

/-- `BPlusTreeLeafPage::MoveHalfTo`: `half = size / 2`; the recipient
receives `array[half..size)` via `CopyHalfFrom` and this page keeps the first
`half` entries.  Note the source does NOT transfer `next_page_id` here.
Returns (this page, recipient). -/
def MoveHalfTo (l recipient : LeafPage) : LeafPage × LeafPage :=
  let half := l.entries.length / 2
  let r := recipient.CopyHalfFrom (l.entries.drop half)
  ({ l with entries := l.entries.take half }, r)

/-- `BPlusTreeLeafPage::CopyAllFrom`: append the items at the tail of the
recipient's array. -/
def CopyAllFrom (l : LeafPage) (items : List (Int × Nat)) : LeafPage :=
  { l with entries := l.entries ++ items }

/-- `BPlusTreeLeafPage::CopyLastFrom`: append one item at `array[size]`. -/
def CopyLastFrom (l : LeafPage) (item : Int × Nat) : LeafPage :=
  { l with entries := l.entries ++ [item] }

/-- `BPlusTreeLeafPage::MoveAllTo` (leaf version; the parent-index and pool
arguments are unused in the source): append this page's entries to the
recipient, transfer `next_page_id`, and empty this page.
Returns (this page, recipient). -/
def MoveAllTo (l recipient : LeafPage) : LeafPage × LeafPage :=
  let r1 := recipient.CopyAllFrom l.entries
  let r2 := { r1 with nextPageId := l.nextPageId }
  ({ l with entries := [] }, r2)

end LeafPage

/-- State of `BPlusTreeInternalPage`: header fields and the live prefix of
the (key, child page id) array; the key of entry 0 is the placeholder the
source leaves as default-initialised bytes, modelled as key 0. -/
structure InternalPage where
  pageId : PageId
  parentPageId : PageId
  maxSize : Nat
  entries : List (Int × PageId)
deriving Repr, DecidableEq

namespace InternalPage

/-- `BPlusTreeInternalPage::Init`: internal type, size 0, ids set,
`max_size = (PAGE_SIZE - 20) / sizeof(MappingType)` (the source's comment:
20 is the header size). -/
def Init (pageId parentId : PageId) : InternalPage :=
  ⟨pageId, parentId, (PAGE_SIZE - 20) / 16, []⟩

/-- `GetSize` of the internal page, as the `int` the source uses. -/
def size (p : InternalPage) : Int := (p.entries.length : Int)

/-- Read `array[i]` within the live prefix. -/
def entryAt? (p : InternalPage) (i : Int) : Option (Int × PageId) :=
  if i < 0 then none else p.entries.get? i.toNat

/-- `BPlusTreeInternalPage::KeyAt` (0 outside the live prefix, whose bytes
are unspecified in the source). -/
def KeyAt (p : InternalPage) (i : Int) : Int :=
  ((p.entryAt? i).map (·.1)).getD 0

/-- `BPlusTreeInternalPage::ValueAt` (INVALID outside the live prefix, whose
bytes are unspecified in the source). -/
def ValueAt (p : InternalPage) (i : Int) : PageId :=
  ((p.entryAt? i).map (·.2)).getD INVALID_PAGE_ID

/-- `BPlusTreeInternalPage::SetKeyAt`. -/
def SetKeyAt (p : InternalPage) (i : Int) (key : Int) : InternalPage :=
  match p.entryAt? i with
  | some e => { p with entries := p.entries.set i.toNat (key, e.2) }
  | none => p

/-- `BPlusTreeInternalPage::ValueIndex`: the first index whose value equals
`value`, and -1 when there is none. -/
def ValueIndex (p : InternalPage) (value : PageId) : Int :=
  match p.entries.findIdx? (fun e => e.2 == value) with
  | some i => (i : Int)
  | none => -1

/-- `BPlusTreeInternalPage::Lookup`: scan keys from index 1; the first `i`
with `comparator(key, array[i].first) == -1` yields `array[i-1].second`,
otherwise `array[size-1].second` (for an empty page the source would read
`array[-1]`; modelled as INVALID). -/
def Lookup (p : InternalPage) (key : Int) : PageId :=
  match (p.entries.drop 1).findIdx? (fun e => intCmp key e.1 == -1) with
  | some j => ((p.entries.get? j).map (·.2)).getD INVALID_PAGE_ID
  | none => ((p.entries.getLast?).map (·.2)).getD INVALID_PAGE_ID

/-- `BPlusTreeInternalPage::PopulateNewRoot`: when this page is a root
(parent INVALID), set `array[0].second = old_value` (its key slot keeps the
default bytes, modelled as 0), `array[1] = (new_key, new_value)`, size 2. -/
def PopulateNewRoot (p : InternalPage) (oldValue : PageId) (newKey : Int)
    (newValue : PageId) : InternalPage :=
  if p.parentPageId == INVALID_PAGE_ID then
    { p with entries := [(0, oldValue), (newKey, newValue)] }
  else p

/-- `BPlusTreeInternalPage::InsertNodeAfter`: insert `(new_key, new_value)`
right after the entry whose value is `old_value`; no-op when `old_value` is
not present. -/
def InsertNodeAfter (p : InternalPage) (oldValue : PageId) (newKey : Int)
    (newValue : PageId) : InternalPage :=
  let index := p.ValueIndex oldValue
  if index == -1 then p
  else
    let i := index.toNat + 1
    { p with entries := p.entries.take i ++ (newKey, newValue) :: p.entries.drop i }

/-- `BPlusTreeInternalPage::Remove`: shift the entries after `index` left by
one and decrement the size.  For `index >= size` the source shifts nothing
and the decrement drops the last live entry; a negative `index` would write
out of bounds (never reached in the embedded runs; modelled as a no-op). -/
def Remove (p : InternalPage) (index : Int) : InternalPage :=
  if index < 0 then p
  else if index.toNat < p.entries.length then
    { p with entries := p.entries.eraseIdx index.toNat }
  else { p with entries := p.entries.dropLast }

/-- `BPlusTreeInternalPage::RemoveAndReturnOnlyChild` as written in the
source: capture `ValueAt(1)`, then `Remove(0)` followed by `Remove(1)`, and
return the captured value. -/
def RemoveAndReturnOnlyChild (p : InternalPage) : PageId × InternalPage :=
  let v := p.ValueAt 1
  let p1 := p.Remove 0
  let p2 := p1.Remove 1
  (v, p2)

/-- The array-copy part of `BPlusTreeInternalPage::CopyHalfFrom` (the
per-entry reparenting of moved children through the buffer pool is performed
by the tree-level embedding). -/
def CopyHalfFrom (p : InternalPage) (items : List (Int × PageId)) :
    InternalPage :=
  { p with entries := items }

/-- The array part of `BPlusTreeInternalPage::MoveHalfTo`: `half = size / 2`;
the recipient receives `array[half..size)`, this page keeps the first `half`
entries.  Returns (this page, recipient, moved items). -/
def MoveHalfTo (p recipient : InternalPage) :
    InternalPage × InternalPage × List (Int × PageId) :=
  let half := p.entries.length / 2
  let moved := p.entries.drop half
  ({ p with entries := p.entries.take half }, recipient.CopyHalfFrom moved, moved)

/-- The array-copy part of `BPlusTreeInternalPage::CopyAllFrom`: append the
items at the tail (reparenting of moved children is tree-level). -/
def CopyAllFrom (p : InternalPage) (items : List (Int × PageId)) :
    InternalPage :=
  { p with entries := p.entries ++ items }

end InternalPage

/-! ## Tree pages as page payloads

A buffer-pool frame's bytes, reinterpreted by the tree code, are a leaf page,
an internal page, the header page (page id 0, a name → root-page-id record
table), or still-uninitialised bytes. -/

/-- The payload of one page as the tree code interprets it. -/
inductive TreeNode where
  | leafNode : LeafPage → TreeNode
  | internalNode : InternalPage → TreeNode
  | headerNode : List (String × PageId) → TreeNode
  | rawNode : TreeNode
deriving Repr, DecidableEq

instance : Inhabited TreeNode := ⟨TreeNode.rawNode⟩

namespace TreeNode

/-- `BPlusTreePage::IsLeafPage`: the page-type header field. -/
def IsLeafPage : TreeNode → Bool
  | leafNode _ => true
  | _ => false

/-- `BPlusTreePage::GetParentPageId` (tree pages only). -/
def GetParentPageId : TreeNode → PageId
  | leafNode l => l.parentPageId
  | internalNode p => p.parentPageId
  | _ => INVALID_PAGE_ID

/-- `BPlusTreePage::IsRootPage`: `parent_page_id_ == INVALID_PAGE_ID`
(`b_plus_tree_page.cpp`, shipped with the skeleton). -/
def IsRootPage (n : TreeNode) : Bool :=
  n.GetParentPageId == INVALID_PAGE_ID

/-- `BPlusTreePage::SetParentPageId` (tree pages only). -/
def SetParentPageId : TreeNode → PageId → TreeNode
  | leafNode l, pid => leafNode { l with parentPageId := pid }
  | internalNode p, pid => internalNode { p with parentPageId := pid }
  | n, _ => n

/-- `BPlusTreePage::GetSize` (tree pages only). -/
def GetSize : TreeNode → Int
  | leafNode l => l.size
  | internalNode p => p.size
  | _ => 0

/-- `BPlusTreePage::GetMaxSize` (tree pages only). -/
def GetMaxSize : TreeNode → Int
  | leafNode l => (l.maxSize : Int)
  | internalNode p => (p.maxSize : Int)
  | _ => 0

/-- Modelled from the spec: `BPlusTreePage::GetMinSize` lives in
`b_plus_tree_page.cpp`, which is not among the provided sources; the spec
fixes `min_size = ⌈max_size / 2⌉` (§3 Tree node header). -/
def GetMinSize (n : TreeNode) : Int :=
  (n.GetMaxSize + 1) / 2

end TreeNode

/-! ## The B+tree over the buffer pool (src/index/b_plus_tree.cpp)

`TreeSys` packages the tree object's state (`index_name_`, `root_page_id_`)
with the buffer pool it owns.  Every operation returns `Option`: `none`
models a failed `assert`, a thrown exception ("fail to fetch page", "run out
of memory"), a reinterpretation of a page at the wrong type, or exhausted
fuel for the source's loops/recursion — none of which occur in the embedded
runs.  The C++ mutates nodes in place through `Page*` pointers into pinned
frames; the model reads a node from its frame, computes, and writes it back
(frames are located through the page table, which agrees with the pointer as
long as the frame is not a victim while in use). -/

/-- The `BPlusTree` object (name, root page id) together with its buffer
pool. -/
structure TreeSys where
  indexName : String
  rootPageId : PageId
  pool : BufferPoolManager TreeNode

namespace TreeSys

/-- Locate the frame currently holding `pid` and read its payload. -/
def readNode (s : TreeSys) (pid : PageId) : Option TreeNode := do
  let f ← s.pool.pageTable.Find pid
  let p ← s.pool.pages.get? f
  some p.data

/-- Write the payload of the frame currently holding `pid` (a mutation the
C++ performs through the node pointer). -/
def writeNode (s : TreeSys) (pid : PageId) (n : TreeNode) : Option TreeSys := do
  let f ← s.pool.pageTable.Find pid
  let p ← s.pool.pages.get? f
  some { s with pool :=
    { s.pool with pages := s.pool.pages.set f { p with data := n } } }

/-- Read `pid` as a leaf page (`reinterpret_cast` to a leaf). -/
def readLeaf (s : TreeSys) (pid : PageId) : Option LeafPage :=
  match s.readNode pid with
  | some (TreeNode.leafNode l) => some l
  | _ => none

/-- Read `pid` as an internal page (`reinterpret_cast` to an internal). -/
def readInternal (s : TreeSys) (pid : PageId) : Option InternalPage :=
  match s.readNode pid with
  | some (TreeNode.internalNode p) => some p
  | _ => none

/-- `BPlusTree::FetchPage`: fetch through the pool and throw ("fail to fetch
page", modelled as `none`) when the pool returns nullptr. -/
def fetchPage (fuel : Nat) (s : TreeSys) (pid : PageId) : Option TreeSys := do
  let (r, bp) ← s.pool.FetchPage fuel pid
  match r with
  | none => none
  | some _ => some { s with pool := bp }

/-- `BPlusTree::NewPage`: allocate through the pool and throw ("run out of
memory") when the pool returns nullptr.  Returns the new page id. -/
def newPage (fuel : Nat) (s : TreeSys) : Option (PageId × TreeSys) := do
  let (r, bp) ← s.pool.NewPage fuel
  match r with
  | none => none
  | some (pid, _) => some (pid, { s with pool := bp })

/-- `buffer_pool_manager_->UnpinPage(pid, is_dirty)` (result ignored by the
tree code). -/
def unpinPage (s : TreeSys) (pid : PageId) (isDirty : Bool) :
    Option TreeSys := do
  let (_, bp) ← s.pool.UnpinPage pid isDirty
  some { s with pool := bp }

/-- `buffer_pool_manager_->DeletePage(pid)` (result ignored by the tree
code). -/
def deletePage (s : TreeSys) (pid : PageId) : Option TreeSys := do
  let (_, bp) ← s.pool.DeletePage pid
  some { s with pool := bp }

/-- `BPlusTree::NewNode<LeafPage>(parent_id)`: `NewPage` then
`node->Init(new_page_id, parent_id)`.  Returns the new page id. -/
def newNodeLeaf (fuel : Nat) (s : TreeSys) (parentId : PageId) :
    Option (PageId × TreeSys) := do
  let (pid, s1) ← s.newPage fuel
  let s2 ← s1.writeNode pid (TreeNode.leafNode (LeafPage.Init pid parentId))
  some (pid, s2)

/-- `BPlusTree::NewNode<InternalPage>(parent_id)`. -/
def newNodeInternal (fuel : Nat) (s : TreeSys) (parentId : PageId) :
    Option (PageId × TreeSys) := do
  let (pid, s1) ← s.newPage fuel
  let s2 ← s1.writeNode pid (TreeNode.internalNode (InternalPage.Init pid parentId))
  some (pid, s2)

/-- Modelled from the spec: `HeaderPage::InsertRecord` (header_page.cpp is
not among the provided sources) appends a (name, root page id) record. -/
def headerInsertRecord (recs : List (String × PageId)) (name : String)
    (pid : PageId) : List (String × PageId) :=
  recs ++ [(name, pid)]

/-- Modelled from the spec: `HeaderPage::UpdateRecord` replaces the page id
recorded under `name`. -/
def headerUpdateRecord (recs : List (String × PageId)) (name : String)
    (pid : PageId) : List (String × PageId) :=
  recs.map (fun r => if r.1 = name then (name, pid) else r)

/-- `BPlusTree::UpdateRootPageId(insert_record)`: fetch the header page
(page id 0), insert or update the record for `index_name_`, unpin it dirty. -/
def updateRootPageId (fuel : Nat) (s : TreeSys) (insertRecord : Bool) :
    Option TreeSys := do
  let s1 ← s.fetchPage fuel 0
  match s1.readNode 0 with
  | some (TreeNode.headerNode recs) =>
    let recs' := if insertRecord then headerInsertRecord recs s.indexName s.rootPageId
                 else headerUpdateRecord recs s.indexName s.rootPageId
    let s2 ← s1.writeNode 0 (TreeNode.headerNode recs')
    s2.unpinPage 0 true
  | _ => none

/-- `BPlusTree::IsEmpty`: `root_page_id_ == INVALID_PAGE_ID`. -/
def IsEmpty (s : TreeSys) : Bool :=
  s.rootPageId == INVALID_PAGE_ID

/-- The descent loop of `BPlusTree::FindLeafPage`: while the current node is
not a leaf, pick the child (`ValueAt(0)` if leftmost, else `Lookup(key)`),
unpin the current node clean, fetch the child.  Returns the (still pinned)
leaf's page id. -/
def findLeafLoop (fuel : Nat) (s : TreeSys) (pid : PageId) (key : Int)
    (leftMost : Bool) : Option (PageId × TreeSys) :=
  match fuel with
  | 0 => none
  | fuel + 1 => do
    match s.readNode pid with
    | some (TreeNode.leafNode _) => some (pid, s)
    | some (TreeNode.internalNode ip) =>
      let child := if leftMost then ip.ValueAt 0 else ip.Lookup key
      let s1 ← s.unpinPage pid false
      let s2 ← s1.fetchPage fuel child
      findLeafLoop fuel s2 child key leftMost
    | _ => none

/-- `BPlusTree::FindLeafPage`: fetch the root (pinning it) and descend. -/
def FindLeafPage (fuel : Nat) (s : TreeSys) (key : Int)
    (leftMost : Bool := false) : Option (PageId × TreeSys) := do
  let s1 ← s.fetchPage fuel s.rootPageId
  findLeafLoop fuel s1 s.rootPageId key leftMost

/-- `BPlusTree::GetValue`: false on an empty tree; otherwise descend to the
leaf, `Lookup`, unpin the leaf clean, and report whether the key exists. -/
def GetValue (fuel : Nat) (s : TreeSys) (key : Int) :
    Option (Bool × TreeSys) := do
  if s.IsEmpty then some (false, s)
  else
    let (lid, s1) ← s.FindLeafPage fuel key
    let leaf ← s1.readLeaf lid
    let found := (leaf.Lookup key).isSome
    let s2 ← s1.unpinPage lid false
    some (found, s2)

/-- `BPlusTree::StartNewTree`: new leaf node, make it the root, insert the
root record in the header page, insert the pair, unpin the root clean. -/
def StartNewTree (fuel : Nat) (s : TreeSys) (key : Int) (value : Nat) :
    Option TreeSys := do
  let (pid, s1) ← s.newNodeLeaf fuel INVALID_PAGE_ID
  let s2 := { s1 with rootPageId := pid }
  let s3 ← s2.updateRootPageId fuel true
  let leaf ← s3.readLeaf pid
  let s4 ← s3.writeNode pid (TreeNode.leafNode (leaf.Insert key value))
  s4.unpinPage s4.rootPageId false

/-- The pool-mediated part of `BPlusTreeInternalPage::CopyHalfFrom` /
`CopyAllFrom`: for each moved entry, fetch the child, set its parent page id
to `newParent`, unpin it dirty. -/
def reparentChildren (fuel : Nat) (s : TreeSys) (items : List (Int × PageId))
    (newParent : PageId) : Option TreeSys :=
  items.foldlM (fun st e => do
    let st1 ← st.fetchPage fuel e.2
    let n ← st1.readNode e.2
    let st2 ← st1.writeNode e.2 (n.SetParentPageId newParent)
    st2.unpinPage e.2 true) s

/-- `BPlusTree::Split<LeafPage>`: allocate a new node with the same parent
id, then `MoveHalfTo` it.  Returns the new leaf's page id. -/
def splitLeaf (fuel : Nat) (s : TreeSys) (lid : PageId) :
    Option (PageId × TreeSys) := do
  let leaf ← s.readLeaf lid
  let (nid, s1) ← s.newNodeLeaf fuel leaf.parentPageId
  let recipient ← s1.readLeaf nid
  let (leaf', new') := leaf.MoveHalfTo recipient
  let s2 ← s1.writeNode lid (TreeNode.leafNode leaf')
  let s3 ← s2.writeNode nid (TreeNode.leafNode new')
  some (nid, s3)

/-- `BPlusTree::Split<InternalPage>`: allocate a new node with the same
parent id, `MoveHalfTo` it, reparenting every moved child to the new page.
Returns the new internal's page id. -/
def splitInternal (fuel : Nat) (s : TreeSys) (pid : PageId) :
    Option (PageId × TreeSys) := do
  let node ← s.readInternal pid
  let (nid, s1) ← s.newNodeInternal fuel node.parentPageId
  let recipient ← s1.readInternal nid
  let (node', new', moved) := node.MoveHalfTo recipient
  let s2 ← s1.writeNode pid (TreeNode.internalNode node')
  let s3 ← s2.writeNode nid (TreeNode.internalNode new')
  let s4 ← s3.reparentChildren fuel moved nid
  some (nid, s4)

/-- `BPlusTree::InsertIntoParent(old_node, key, new_node)` (fuelled
recursion).  Root case: populate a fresh internal root, reparent both
children, update the header record, unpin all three.  Non-root case: fetch
the parent; when it has room, `InsertNodeAfter` and unpin old/new/parent;
otherwise split the parent, place the entry by comparing `key` against the
new internal's `KeyAt(1)` (reparenting `new_node` if it goes right), unpin
old and new, and recurse with the parent and the new internal's `KeyAt(0)`. -/
def insertIntoParent (fuel : Nat) (s : TreeSys) (oldId : PageId) (key : Int)
    (newId : PageId) : Option TreeSys :=
  match fuel with
  | 0 => none
  | fuel + 1 => do
    let oldNode ← s.readNode oldId
    if oldNode.IsRootPage then
      let (pid, s1) ← s.newNodeInternal fuel INVALID_PAGE_ID
      let parent ← s1.readInternal pid
      let s2 ← s1.writeNode pid
        (TreeNode.internalNode (parent.PopulateNewRoot oldId key newId))
      let oldN ← s2.readNode oldId
      let s3 ← s2.writeNode oldId (oldN.SetParentPageId pid)
      let newN ← s3.readNode newId
      let s4 ← s3.writeNode newId (newN.SetParentPageId pid)
      let s5 := { s4 with rootPageId := pid }
      let s6 ← s5.updateRootPageId fuel false
      let s7 ← s6.unpinPage oldId true
      let s8 ← s7.unpinPage newId true
      s8.unpinPage pid true
    else
      let s1 ← s.fetchPage fuel oldNode.GetParentPageId
      let parentId := oldNode.GetParentPageId
      let parent ← s1.readInternal parentId
      if parent.entries.length < parent.maxSize then
        let s2 ← s1.writeNode parentId
          (TreeNode.internalNode (parent.InsertNodeAfter oldId key newId))
        let s3 ← s2.unpinPage oldId true
        let s4 ← s3.unpinPage newId true
        s4.unpinPage parentId true
      else
        let (npid, s2) ← s1.splitInternal fuel parentId
        let newParent ← s2.readInternal npid
        let s3 ←
          if intCmp key (newParent.KeyAt 1) == -1 then do
            let p ← s2.readInternal parentId
            s2.writeNode parentId
              (TreeNode.internalNode (p.InsertNodeAfter oldId key newId))
          else do
            let s' ← s2.writeNode npid
              (TreeNode.internalNode (newParent.InsertNodeAfter oldId key newId))
            let newN ← s'.readNode newId
            s'.writeNode newId (newN.SetParentPageId npid)
        let s4 ← s3.unpinPage oldId true
        let s5 ← s4.unpinPage newId true
        let np ← s5.readInternal npid
        insertIntoParent fuel s5 parentId (np.KeyAt 0) npid

/-- `BPlusTree::InsertIntoLeaf`.  Duplicate key: return false immediately
(the pinned leaf is NOT unpinned — see claim C4).  Room in the leaf: insert
and unpin dirty.  Overflow: split the leaf, place the pair by comparing
against the new leaf's `KeyAt(0)`, set the old leaf's `next_page_id` to the
new leaf (the new leaf's own `next_page_id` keeps `Init`'s INVALID — see
claim C3), and `InsertIntoParent` with the new leaf's `KeyAt(0)`. -/
def InsertIntoLeaf (fuel : Nat) (s : TreeSys) (key : Int) (value : Nat) :
    Option (Bool × TreeSys) := do
  let (lid, s1) ← s.FindLeafPage fuel key
  let leaf ← s1.readLeaf lid
  if (leaf.Lookup key).isSome then
    some (false, s1)
  else if leaf.entries.length < leaf.maxSize then
    let s2 ← s1.writeNode lid (TreeNode.leafNode (leaf.Insert key value))
    let s3 ← s2.unpinPage lid true
    some (true, s3)
  else
    let (nid, s2) ← s1.splitLeaf fuel lid
    let newLeaf ← s2.readLeaf nid
    let s3 ←
      if intCmp key (newLeaf.KeyAt 0) < 0 then do
        let l ← s2.readLeaf lid
        s2.writeNode lid (TreeNode.leafNode (l.Insert key value))
      else
        s2.writeNode nid (TreeNode.leafNode (newLeaf.Insert key value))
    let l2 ← s3.readLeaf lid
    let s4 ← s3.writeNode lid (TreeNode.leafNode { l2 with nextPageId := nid })
    let nl ← s4.readLeaf nid
    let s5 ← s4.insertIntoParent fuel lid (nl.KeyAt 0) nid
    some (true, s5)

/-- `BPlusTree::Insert`: start a new tree when empty, else insert into the
target leaf. -/
def Insert (fuel : Nat) (s : TreeSys) (key : Int) (value : Nat) :
    Option (Bool × TreeSys) := do
  if s.IsEmpty then
    let s1 ← s.StartNewTree fuel key value
    some (true, s1)
  else s.InsertIntoLeaf fuel key value

/-- `BPlusTreeLeafPage::MoveFirstToEndOf`: move the mover's first pair to the
recipient's tail (`CopyLastFrom`), shrink the mover, then fetch the mover's
parent, set its key 1 to the mover's new first key, and unpin it dirty. -/
def leafMoveFirstToEndOf (fuel : Nat) (s : TreeSys) (moverId recipientId : PageId) :
    Option TreeSys := do
  let mover ← s.readLeaf moverId
  let pair ← mover.entries.get? 0
  let recipient ← s.readLeaf recipientId
  let s1 ← s.writeNode recipientId (TreeNode.leafNode (recipient.CopyLastFrom pair))
  let mover1 := { mover with entries := mover.entries.drop 1 }
  let s2 ← s1.writeNode moverId (TreeNode.leafNode mover1)
  let s3 ← s2.fetchPage fuel mover.parentPageId
  let parent ← s3.readInternal mover.parentPageId
  let newFirst ← mover1.entries.get? 0
  let s4 ← s3.writeNode mover.parentPageId
    (TreeNode.internalNode (parent.SetKeyAt 1 newFirst.1))
  s4.unpinPage mover.parentPageId true

/-- `BPlusTreeLeafPage::MoveLastToFrontOf` + `CopyFirstFrom`: move the
mover's last pair to the recipient's head; in `CopyFirstFrom` the recipient
fetches its parent, sets its key at `parentIndex` to the moved key, unpins it
dirty, and prepends the pair. -/
def leafMoveLastToFrontOf (fuel : Nat) (s : TreeSys) (moverId recipientId : PageId)
    (parentIndex : Int) : Option TreeSys := do
  let mover ← s.readLeaf moverId
  let pair ← mover.entries.getLast?
  let s1 ← s.writeNode moverId
    (TreeNode.leafNode { mover with entries := mover.entries.dropLast })
  let recipient ← s1.readLeaf recipientId
  let s2 ← s1.fetchPage fuel recipient.parentPageId
  let parent ← s2.readInternal recipient.parentPageId
  let s3 ← s2.writeNode recipient.parentPageId
    (TreeNode.internalNode (parent.SetKeyAt parentIndex pair.1))
  let s4 ← s3.unpinPage recipient.parentPageId true
  s4.writeNode recipientId
    (TreeNode.leafNode { recipient with entries := pair :: recipient.entries })

/-- `BPlusTreeInternalPage::MoveFirstToEndOf` + `CopyLastFrom`: the moved
pair is `(KeyAt(1), ValueAt(0))`; `Remove(0)` on the mover; the recipient
fetches its parent, appends `(parent.KeyAt(1), pair.second)`, rotates
`pair.first` up into the parent's key 1, unpins the parent dirty, and
reparents the moved child to itself. -/
def internalMoveFirstToEndOf (fuel : Nat) (s : TreeSys)
    (moverId recipientId : PageId) : Option TreeSys := do
  let mover ← s.readInternal moverId
  let pair := (mover.KeyAt 1, mover.ValueAt 0)
  let s1 ← s.writeNode moverId (TreeNode.internalNode (mover.Remove 0))
  let recipient ← s1.readInternal recipientId
  let s2 ← s1.fetchPage fuel recipient.parentPageId
  let parent ← s2.readInternal recipient.parentPageId
  let s3 ← s2.writeNode recipientId
    (TreeNode.internalNode
      { recipient with entries := recipient.entries ++ [(parent.KeyAt 1, pair.2)] })
  let s4 ← s3.writeNode recipient.parentPageId
    (TreeNode.internalNode (parent.SetKeyAt 1 pair.1))
  let s5 ← s4.unpinPage recipient.parentPageId true
  let s6 ← s5.fetchPage fuel pair.2
  let child ← s6.readNode pair.2
  let s7 ← s6.writeNode pair.2 (child.SetParentPageId recipientId)
  s7.unpinPage pair.2 true

/-- The shift-and-write part of `BPlusTreeInternalPage::CopyFirstFrom`: shift
right, overwrite `array[0].second` with the moved child and `array[1].first`
with the parent separator (on an empty live prefix the writes land in stale
slots whose key bytes are unspecified, modelled as key 0). -/
def internalCopyFirstShift (p : InternalPage) (pairVal : PageId)
    (parentKey : Int) : InternalPage :=
  match p.entries with
  | [] => { p with entries := [(0, pairVal)] }
  | e0 :: rest => { p with entries := (e0.1, pairVal) :: (parentKey, e0.2) :: rest }

/-- `BPlusTreeInternalPage::MoveLastToFrontOf` + `CopyFirstFrom`: remove the
mover's last pair; the recipient fetches its parent, shifts itself right,
installs the moved child at value 0 and the parent separator at key 1, puts
the moved key into the parent at `parentIndex`, unpins
`parent->GetParentPageId()` (sic — the source unpins the grandparent's id,
not the parent's, see the spec's design notes), and reparents the moved
child. -/
def internalMoveLastToFrontOf (fuel : Nat) (s : TreeSys)
    (moverId recipientId : PageId) (parentIndex : Int) : Option TreeSys := do
  let mover ← s.readInternal moverId
  let pair ← mover.entries.getLast?
  let s1 ← s.writeNode moverId
    (TreeNode.internalNode (mover.Remove (mover.size - 1)))
  let recipient ← s1.readInternal recipientId
  let s2 ← s1.fetchPage fuel recipient.parentPageId
  let parent ← s2.readInternal recipient.parentPageId
  let s3 ← s2.writeNode recipientId
    (TreeNode.internalNode
      (internalCopyFirstShift recipient pair.2 (parent.KeyAt parentIndex)))
  let s4 ← s3.writeNode recipient.parentPageId
    (TreeNode.internalNode (parent.SetKeyAt parentIndex pair.1))
  let s5 ← s4.unpinPage parent.parentPageId true
  let s6 ← s5.fetchPage fuel pair.2
  let child ← s6.readNode pair.2
  let s7 ← s6.writeNode pair.2 (child.SetParentPageId recipientId)
  s7.unpinPage pair.2 true

/-- `BPlusTree::Redistribute(neighbor, node, index)`: `index == 0` moves the
neighbor's first pair to the node's tail, otherwise the neighbor's last pair
to the node's head; dispatched on the page type as the C++ template is. -/
def Redistribute (fuel : Nat) (s : TreeSys) (neighborId nodeId : PageId)
    (index : Int) : Option TreeSys := do
  let neighbor ← s.readNode neighborId
  match neighbor with
  | TreeNode.leafNode _ =>
    if index == 0 then s.leafMoveFirstToEndOf fuel neighborId nodeId
    else s.leafMoveLastToFrontOf fuel neighborId nodeId index
  | TreeNode.internalNode _ =>
    if index == 0 then s.internalMoveFirstToEndOf fuel neighborId nodeId
    else s.internalMoveLastToFrontOf fuel neighborId nodeId index
  | _ => none

/-- `BPlusTree::Coalesce(neighbor, node, parent, index)`: `node->MoveAllTo`
the neighbor (the leaf version transfers `next_page_id`; the internal
version first pulls the separator `parent.KeyAt(index)` down into its key 0,
unpinning the parent clean, and reparents every moved child), then
`parent->Remove(index)`, then ask the pool to delete the node's page (which
fails, the node still being pinned).  Returns whether the parent is empty. -/
def Coalesce (fuel : Nat) (s : TreeSys) (neighborId nodeId parentId : PageId)
    (index : Int) : Option (Bool × TreeSys) := do
  let node ← s.readNode nodeId
  let s3 ←
    match node with
    | TreeNode.leafNode l => do
      let neighbor ← s.readLeaf neighborId
      let (l', n') := l.MoveAllTo neighbor
      let s1 ← s.writeNode nodeId (TreeNode.leafNode l')
      s1.writeNode neighborId (TreeNode.leafNode n')
    | TreeNode.internalNode ip => do
      let s1 ← s.fetchPage fuel ip.parentPageId
      let parent ← s1.readInternal ip.parentPageId
      let ip1 := ip.SetKeyAt 0 (parent.KeyAt index)
      let s2 ← s1.writeNode nodeId (TreeNode.internalNode ip1)
      let s3 ← s2.unpinPage ip.parentPageId false
      let neighbor ← s3.readInternal neighborId
      let s4 ← s3.writeNode neighborId
        (TreeNode.internalNode (neighbor.CopyAllFrom ip1.entries))
      s4.reparentChildren fuel ip1.entries neighborId
    | _ => none
  let parent ← s3.readInternal parentId
  let parent1 := parent.Remove index
  let s4 ← s3.writeNode parentId (TreeNode.internalNode parent1)
  let s5 ← s4.deletePage nodeId
  some (parent1.entries.length == 0, s5)

/-- `BPlusTree::AdjustRoot`: an empty leaf root is deleted (the pool call
fails on the still-pinned page) and the tree becomes empty; an internal root
of size 1 is replaced by its only child, whose parent id is cleared. -/
def AdjustRoot (fuel : Nat) (s : TreeSys) (oldRootId : PageId) :
    Option (Bool × TreeSys) := do
  let n ← s.readNode oldRootId
  match n with
  | TreeNode.leafNode l =>
    if l.entries.length == 0 then do
      let s1 ← s.deletePage s.rootPageId
      let s2 := { s1 with rootPageId := INVALID_PAGE_ID }
      let s3 ← s2.updateRootPageId fuel false
      some (true, s3)
    else some (false, s)
  | TreeNode.internalNode ip =>
    if ip.entries.length == 1 then do
      let childId := ip.ValueAt 0
      let s1 ← s.deletePage ip.pageId
      let s2 := { s1 with rootPageId := childId }
      let s3 ← s2.updateRootPageId fuel false
      let s4 ← s3.fetchPage fuel childId
      let child ← s4.readNode childId
      let s5 ← s4.writeNode childId (child.SetParentPageId INVALID_PAGE_ID)
      let s6 ← s5.unpinPage childId true
      some (true, s6)
    else some (false, s)
  | _ => none

/-- `BPlusTree::CoalesceOrRedistribute` (fuelled recursion).  Root: `AdjustRoot`.
No underflow: unpin dirty, no deletion.  Otherwise fetch the parent, choose
the right sibling when the node is child 0 and the left sibling otherwise;
redistribute when the two sizes exceed `max_size` (unpinning only the
sibling), else coalesce (`index == 0` merges the sibling into the node and
removes parent entry 1, otherwise merges the node into the sibling and
removes parent entry `index`), then recurse on the parent. -/
def CoalesceOrRedistribute (fuel : Nat) (s : TreeSys) (nodeId : PageId) :
    Option (Bool × TreeSys) :=
  match fuel with
  | 0 => none
  | fuel + 1 => do
    let node ← s.readNode nodeId
    if node.IsRootPage then s.AdjustRoot fuel nodeId
    else if node.GetMinSize ≤ node.GetSize then do
      let s1 ← s.unpinPage nodeId true
      some (false, s1)
    else do
      let parentId := node.GetParentPageId
      let s1 ← s.fetchPage fuel parentId
      let parent ← s1.readInternal parentId
      let index := parent.ValueIndex nodeId
      let siblingId := if index == 0 then parent.ValueAt (index + 1)
                       else parent.ValueAt (index - 1)
      let s2 ← s1.fetchPage fuel siblingId
      let sibling ← s2.readNode siblingId
      if node.GetMaxSize < sibling.GetSize + node.GetSize then do
        let s3 ← s2.Redistribute fuel siblingId nodeId index
        let s4 ← s3.unpinPage siblingId true
        let (_, s5) ← s4.CoalesceOrRedistribute fuel parentId
        some (false, s5)
      else do
        let s3 ←
          if index == 0 then do
            let (_, s') ← s2.Coalesce fuel nodeId siblingId parentId 1
            s'.unpinPage nodeId true
          else do
            let (_, s') ← s2.Coalesce fuel siblingId nodeId parentId index
            s'.unpinPage siblingId true
        let (_, s4) ← s3.CoalesceOrRedistribute fuel parentId
        some (true, s4)

/-- `BPlusTree::Remove`: nothing on an empty tree; descend to the leaf; when
the key is present, `RemoveAndDeleteRecord` then `CoalesceOrRedistribute`;
when absent, return (the pinned leaf is NOT unpinned — see claim C4). -/
def Remove (fuel : Nat) (s : TreeSys) (key : Int) : Option TreeSys := do
  if s.IsEmpty then some s
  else
    let (lid, s1) ← s.FindLeafPage fuel key
    let leaf ← s1.readLeaf lid
    if (leaf.Lookup key).isSome then do
      let s2 ← s1.writeNode lid
        (TreeNode.leafNode (leaf.RemoveAndDeleteRecord key))
      let (_, s3) ← s2.CoalesceOrRedistribute fuel lid
      some s3
    else some s1

end TreeSys

/-! ## Concrete tree systems for the embedded runs -/

/-- A fresh tree system: empty tree named "idx" over a pool of `poolSize`
frames (`BUCKET_SIZE = 50` as in the source's `config.h`), a disk whose page
0 holds an empty header page, next allocatable page id 1. -/
def mkTreeSys (poolSize : Nat) : TreeSys where
  indexName := "idx"
  rootPageId := INVALID_PAGE_ID
  pool := BufferPoolManager.new poolSize 50
    ⟨fun pid => if pid = 0 then TreeNode.headerNode [] else TreeNode.rawNode, 1, []⟩

/-- Run `Insert(k, k.natAbs)` for each key in order. -/
def insertAll (fuel : Nat) (s : TreeSys) (keys : List Int) : Option TreeSys :=
  keys.foldlM (fun st k => (st.Insert fuel k k.natAbs).map (·.2)) s

/-- Walk the leaf chain from the leaf at `pid` through `next_page_id`,
collecting the stored keys in order. -/
def leafChainKeys (s : TreeSys) : Nat → PageId → Option (List Int)
  | 0, _ => none
  | fuel + 1, pid =>
    if pid == INVALID_PAGE_ID then some []
    else do
      let l ← s.readLeaf pid
      let rest ← leafChainKeys s fuel l.nextPageId
      some (l.entries.map (·.1) ++ rest)

/-- The leaf-page computation performed by the overflow branch of
`BPlusTree::InsertIntoLeaf` (source lines 114-120), at the page level:
`Split` allocates a new leaf with the same parent id (`NewNode` + `Init`)
and `MoveHalfTo`s it; the triggering pair goes to the old leaf iff
`comparator(key, new_leaf.KeyAt(0)) < 0`, else to the new leaf; the old
leaf's `next_page_id` is set to the new leaf's page id; the key passed to
`InsertIntoParent` is the new leaf's `KeyAt(0)` read after the insertion.
Returns (old leaf, new leaf, promoted key). -/
def leafSplitOutcome (leaf : LeafPage) (newPageId : PageId) (key : Int)
    (value : Nat) : LeafPage × LeafPage × Int :=
  let recipient := LeafPage.Init newPageId leaf.parentPageId
  let pr := leaf.MoveHalfTo recipient
  let pr2 :=
    if intCmp key (pr.2.KeyAt 0) < 0 then (pr.1.Insert key value, pr.2)
    else (pr.1, pr.2.Insert key value)
  let l3 := { pr2.1 with nextPageId := newPageId }
  (l3, pr2.2, pr2.2.KeyAt 0)

/-! ## Concrete runs referenced by the theorems -/

/-- A disk holding arbitrary zeroed pages, next page id 1, nothing
deallocated (payloads are plain `Nat` byte-buffer stand-ins for the
pool-level runs). -/
def natDisk : DiskManager Nat := ⟨fun _ => 0, 1, []⟩

/-- A one-frame pool, as in the pinned-victim run of claim C1. -/
def onePool : BufferPoolManager Nat := BufferPoolManager.new 1 50 natDisk

/-- Pool run: FetchPage(1); UnpinPage(1, false); FetchPage(1).  After these,
frame 0 holds page 1 with pin count 1 and is still a member of the
replacer. -/
def pinnedMemberRun : Option (BufferPoolManager Nat) := do
  let (_, s1) ← onePool.FetchPage 10 1
  let (_, s2) ← s1.UnpinPage 1 false
  let (_, s3) ← s2.FetchPage 10 1
  some s3

/-- Pool run for the dirty-flag claim: FetchPage(1); FetchPage(1);
UnpinPage(1, true).  Frame 0 then holds page 1 with pin count 1 and the
dirty flag set. -/
def dirtyPinnedRun : Option (BufferPoolManager Nat) := do
  let (_, s1) ← onePool.FetchPage 10 1
  let (_, s2) ← s1.FetchPage 10 1
  let (_, s3) ← s2.UnpinPage 1 true
  some s3

/-- Tree run: a single insert, leaving a one-leaf tree {1 → 1} at page 1
with all pins released. -/
def oneLeafTree : Option TreeSys := insertAll 30 (mkTreeSys 10) [1]

/-- Tree run: insert 1, 2, 3, 4, 5, 0, -1, -2 with `max_size = 4`.  The 5th
insert splits the root leaf (pages: leaf 1, leaf 2, internal root 3); the
8th insert splits leaf 1 again into the new leaf 4, an interior split whose
old leaf had `next_page_id = 2`. -/
def chainRun : Option TreeSys := insertAll 30 (mkTreeSys 20) [1, 2, 3, 4, 5, 0, -1, -2]

/-- The same run up to (and excluding) the chain-corrupting 8th insert. -/
def chainRunPre : Option TreeSys := insertAll 30 (mkTreeSys 20) [1, 2, 3, 4, 5, 0, -1]

/-- An internal page of size 2 holding children 10 and 20, the failing input
of claim C9. -/
def c9page : InternalPage := ⟨3, INVALID_PAGE_ID, 4, [(0, 10), (5, 20)]⟩

/-- A full one-bucket hash state (capacity 2, both slots occupied, local
depth = global depth = 0): the split-protocol witness state for claim C6. -/
def fullHash : ExtendibleHash Int Nat :=
  ⟨0, 1, 2, [⟨0, 2, [⟨true, 2, 20⟩, ⟨true, 5, 50⟩]⟩], [0], pageIdHash⟩

/-- A fresh integer-keyed hash table of bucket capacity 2 (as in the
`ExtendibleHash<int, int>` test instantiation), hashing like
`std::hash<int>`. -/
def freshHash : ExtendibleHash Int Nat := ExtendibleHash.new pageIdHash 2

/-- A frame holding page 1 with pin count 1 and the dirty flag set. -/
def c2wPage : Page Nat := ⟨1, 1, true, 0⟩

/-- A page-table bucket whose first slot maps page 1 to frame 0. -/
def c2wBucket : Bucket PageId Nat :=
  ⟨0, 1, ⟨true, 1, 0⟩ :: List.replicate 49 ⟨false, 0, 0⟩⟩

/-- A one-frame pool in which page 1 is resident in frame 0, pinned once and
dirty: the witness state for the amended UnpinPage contract. -/
def c2wPool : BufferPoolManager Nat :=
  ⟨[c2wPage], ⟨0, 1, 50, [c2wBucket], [0], pageIdHash⟩, ⟨[]⟩, [], natDisk⟩

/-- A full leaf (`max_size = 4` with 4 entries), the witness input for the
leaf-split theorem. -/
def c5leaf : LeafPage :=
  ⟨1, INVALID_PAGE_ID, 4, INVALID_PAGE_ID, [(1, 1), (2, 2), (3, 3), (4, 4)]⟩

/-! # Theorems -/

/-! ## Facts about the comparator and leaf insertion used below -/

/-- The comparator reports 0 exactly on equal keys. -/
theorem intCmp_eq_zero_iff {a b : Int} : intCmp a b = 0 ↔ a = b := by
  unfold intCmp; split <;> [omega; split <;> omega]

/-- The comparator is negative exactly when the left key is smaller. -/
theorem intCmp_lt_zero_iff {a b : Int} : intCmp a b < 0 ↔ a < b := by
  unfold intCmp; split <;> [omega; split <;> omega]

/-- The comparator is nonnegative exactly when the right key is not
larger. -/
theorem intCmp_nonneg_iff {a b : Int} : 0 ≤ intCmp a b ↔ b ≤ a := by
  unfold intCmp; split <;> [omega; split <;> omega]

/-- An entry read through `entryAt?` belongs to the live prefix. -/
theorem LeafPage.mem_of_entryAt? {l : LeafPage} {i : Int} {e : Int × Nat}
    (h : l.entryAt? i = some e) : e ∈ l.entries := by
  unfold LeafPage.entryAt? at h
  split at h
  · cases h
  · exact List.get?_mem h

/-- Leaf `Insert` of a key not present in the page stores that key. -/
theorem LeafPage.mem_keys_Insert (l : LeafPage) (key : Int) (v : Nat)
    (hk : key ∉ l.entries.map Prod.fst) :
    key ∈ ((l.Insert key v).entries.map Prod.fst) := by
  by_cases h0 : (l.entries.length == 0) = true
  · simp [LeafPage.Insert, h0]
  · have hcmp : ((match l.entryAt? (l.KeyIndex key) with
        | some e => intCmp e.1 key
        | none => 1) == 0) = false := by
      cases hE : l.entryAt? (l.KeyIndex key) with
      | none => simp
      | some e =>
        simp only [beq_eq_false_iff_ne, ne_eq, intCmp_eq_zero_iff]
        intro heq
        exact hk (List.mem_map.mpr ⟨e, LeafPage.mem_of_entryAt? hE, heq⟩)
    by_cases hneg : (l.KeyIndex key == -1) = true
    · simp [LeafPage.Insert, h0, hcmp, hneg]
    · simp [LeafPage.Insert, h0, hcmp, hneg]

/-- Leaf `Insert` of a key greater than the first key leaves `KeyAt 0`
unchanged: `KeyIndex` never answers 0 for such a key, so the insertion
position is 1 or later (or the page is returned unchanged). -/
theorem LeafPage.KeyAt_zero_Insert_of_lt (l : LeafPage) (key : Int) (v : Nat)
    (hne : l.entries ≠ []) (hlt : l.KeyAt 0 < key) :
    (l.Insert key v).KeyAt 0 = l.KeyAt 0 := by
  obtain ⟨e0, rest, hE⟩ := List.exists_cons_of_ne_nil hne
  have hK0 : l.KeyAt 0 = e0.1 := by
    simp [LeafPage.KeyAt, LeafPage.entryAt?, hE]
  have hped : (decide (0 ≤ intCmp e0.1 key)) = false := by
    rw [hK0] at hlt
    simp [intCmp_nonneg_iff]
    omega
  have h0 : (l.entries.length == 0) = false := by simp [hE]
  have hfind : l.entries.findIdx? (fun e => decide (0 ≤ intCmp e.1 key))
      = (rest.findIdx? (fun e => decide (0 ≤ intCmp e.1 key))).map (fun k => k + 1) := by
    rw [hE]
    rw [List.findIdx?_cons, hped]
    simp
  cases hrest : rest.findIdx? (fun e => decide (0 ≤ intCmp e.1 key)) with
  | none =>
    have hidx : l.KeyIndex key = -1 := by
      unfold LeafPage.KeyIndex
      rw [hfind, hrest]
      rfl
    have hcmp : l.entryAt? (l.KeyIndex key) = none := by
      rw [hidx]; simp [LeafPage.entryAt?]
    unfold LeafPage.Insert
    rw [h0]
    simp only [Bool.false_eq_true, if_false, hcmp, hidx]
    simp [LeafPage.KeyAt, LeafPage.entryAt?, hE]
  | some j =>
    have hidx : l.KeyIndex key = ((j + 1 : Nat) : Int) := by
      unfold LeafPage.KeyIndex
      rw [hfind, hrest]
      simp
    unfold LeafPage.Insert
    rw [h0]
    simp only [Bool.false_eq_true, if_false]
    by_cases hcz : ((match l.entryAt? (l.KeyIndex key) with
        | some e => intCmp e.1 key
        | none => 1) == 0) = true
    · rw [hcz]
      simp
    · rw [Bool.not_eq_true] at hcz
      rw [hcz]
      have hne1 : (l.KeyIndex key == -1) = false := by
        rw [hidx]
        simp
        omega
      simp only [Bool.false_eq_true, if_false, hne1]
      have htn : (l.KeyIndex key).toNat = j + 1 := by rw [hidx]; simp
      rw [htn]
      simp [LeafPage.KeyAt, LeafPage.entryAt?, hE, List.take_succ_cons]

/-! ## The claim theorems -/

/-- C1: the invariant "a frame with pin_count > 0 is never a replacement
victim" fails on the code.  After FetchPage(1), UnpinPage(1, false),
FetchPage(1) on a one-frame pool, frame 0 holds page 1 with pin count 1 yet
is still a member of the replacer (FetchPage's hit path pins without erasing
the frame from the replacer), so replacer members, free list and pinned
frames do not partition the frames; the subsequent FetchPage(2) then removes
that pinned frame from the replacer as its replacement victim and succeeds,
evicting page 1 while pinned. -/
theorem pinned_frame_becomes_victim :
    (pinnedMemberRun.map fun s =>
      (s.pages.map fun p => (p.pageId, p.pinCount), s.replacer.list, s.freeList))
      = some ([(1, 1)], [0], []) ∧
    ((pinnedMemberRun.bind fun s => s.FetchPage 10 2).map fun r =>
      (r.1, r.2.pages.map fun p => (p.pageId, p.pinCount)))
      = some (some 0, [(2, 1)]) :=
  ⟨rfl, rfl⟩

/-- C2 counterexample: UnpinPage does not OR the dirty flag.  After
FetchPage(1), FetchPage(1), UnpinPage(1, true) the frame is dirty with pin
count 1; the claim says a later UnpinPage(1, false) leaves it dirty, but the
code assigns the flag, leaving the frame clean. -/
theorem unpin_overwrites_dirty_flag :
    (dirtyPinnedRun.map fun s => s.pages.map fun p => (p.pinCount, p.isDirty))
      = some [(1, true)] ∧
    ((dirtyPinnedRun.bind fun s => s.UnpinPage 1 false).map fun r =>
      (r.1, r.2.pages.map fun p => (p.pinCount, p.isDirty)))
      = some (true, [(0, false)]) :=
  ⟨rfl, rfl⟩

/-- C3: the leaf chain is corrupted by an interior leaf split.  Before the
8th insert of the run, leaf 1 (keys [-1, 0, 1, 2]) has next_page_id 2; the
insert of -2 splits it into the new leaf 4, after which leaf 4's
next_page_id is INVALID (-1), not the old leaf's previous next 2, so the
chain from the leftmost leaf yields only [-2, -1, 0, 1, 2] while key 3 —
inserted and never removed — is still found by GetValue but missing from the
chain. -/
theorem leaf_split_chain_corrupted :
    (chainRunPre.bind fun s => (s.readLeaf 1).map (·.nextPageId)) = some 2 ∧
    (chainRun.bind fun s => (s.readLeaf 1).map (·.nextPageId)) = some 4 ∧
    (chainRun.bind fun s => (s.readLeaf 4).map (·.nextPageId)) = some INVALID_PAGE_ID ∧
    (chainRun.bind fun s => leafChainKeys s 10 1) = some [-2, -1, 0, 1, 2] ∧
    (chainRun.bind fun s => (s.GetValue 30 3).map (·.1)) = some true :=
  ⟨rfl, rfl, rfl, rfl, rfl⟩

/-- C4: pin pairing fails on early-return paths.  On the one-leaf tree the
pin-count sum at rest is 0; Insert of the already-present key 1 returns
false leaving the sum at 1 (the leaf fetched by FindLeafPage is never
unpinned), and Remove of the absent key 2 likewise leaves the sum at 1. -/
theorem pin_leak_on_duplicate_and_absent :
    (oneLeafTree.map fun s => s.pool.pinSum) = some 0 ∧
    ((oneLeafTree.bind fun s => s.Insert 30 1 5).map fun r => (r.1, r.2.pool.pinSum))
      = some (false, 1) ∧
    ((oneLeafTree.bind fun s => s.Remove 30 2).map fun s' => s'.pool.pinSum)
      = some 1 :=
  ⟨rfl, rfl, rfl⟩

/-- C8: looking up a key greater than every key in its leaf makes
`KeyIndex` return -1, and `Lookup`'s subsequent access to
`array[KeyIndex(key)]` is outside [0, size): on the one-leaf tree {1 → 1},
GetValue(2) routes to leaf 1 and the accessed index -1 violates the bound. -/
theorem lookup_accesses_index_minus_one :
    ((oneLeafTree.bind fun s => s.FindLeafPage 30 2).map (·.1)) = some 1 ∧
    (oneLeafTree.bind fun s => (s.readLeaf 1).map fun l =>
      (l.entries, l.KeyIndex 2, decide (0 ≤ l.KeyIndex 2 ∧ l.KeyIndex 2 < l.size)))
      = some ([(1, 1)], -1, false) :=
  ⟨rfl, rfl⟩

/-- C9: `RemoveAndReturnOnlyChild` does not return the value stored at index
0: on an internal page of size 2 with children 10 and 20 it captures
`ValueAt(1)` and returns 20, whereas the value at index 0 is 10. -/
theorem remove_only_child_returns_wrong_value :
    (c9page.RemoveAndReturnOnlyChild).1 = 20 ∧
    c9page.ValueAt 0 = 10 ∧ (20 : PageId) ≠ 10 :=
  ⟨rfl, rfl, by decide⟩

/-- C7 counterexample: last write does not win.  Inserting (1, 10) then
(1, 20) into a fresh capacity-2 table stores the second pair in the second
slot; Find(1) scans slots in order and returns 10, the first value, not
20. -/
theorem duplicate_insert_find_returns_first :
    (do
      let s1 ← ExtendibleHash.insertFuel 5 freshHash 1 10
      let s2 ← ExtendibleHash.insertFuel 5 s1 1 20
      some (s2.Find 1)) = some (some 10) ∧ (10 : Nat) ≠ 20 :=
  ⟨rfl, by decide⟩

/-- C7 amended: a duplicate insert does not overwrite, and `Find` returns
the earliest-stored value.  For every key and pair of values, inserting
(k, v1) then (k, v2) into a fresh capacity-2 table leaves both pairs stored
and Find(k) yields v1, the first write. -/
theorem duplicate_insert_first_write_wins (k : Int) (v1 v2 : Nat) :
    (do
      let s1 ← ExtendibleHash.insertFuel 5 freshHash k v1
      let s2 ← ExtendibleHash.insertFuel 5 s1 k v2
      some (s2.Find k)) = some (some v1) := by
  simp [ExtendibleHash.insertFuel, freshHash, ExtendibleHash.new, ExtendibleHash.HashKey,
        ExtendibleHash.EntryAt, Bucket.new, Bucket.Full, ExtendibleHash.setBucketAt,
        Bucket.Insert, ExtendibleHash.Find, Bucket.Find, List.replicate]

/-- C2 amended: the exact UnpinPage contract of the code.  For a page id
that is not INVALID: failure (false, state unchanged) exactly when the page
is not resident or its pin count is already ≤ 0; otherwise the pin count is
decremented, the dirty flag is ASSIGNED from `is_dirty`, and the frame is
inserted into the replacer exactly when the pin count reaches 0. -/
theorem UnpinPage_spec {D : Type} [Inhabited D] (bp : BufferPoolManager D)
    (pid : PageId) (isDirty : Bool) (hpid : pid ≠ INVALID_PAGE_ID) :
    (bp.pageTable.Find pid = none → bp.UnpinPage pid isDirty = some (false, bp)) ∧
    (∀ f p, bp.pageTable.Find pid = some f → bp.pages[f]? = some p →
      (p.pinCount ≤ 0 → bp.UnpinPage pid isDirty = some (false, bp)) ∧
      (0 < p.pinCount → bp.UnpinPage pid isDirty = some (true,
        { bp with
          pages := bp.pages.set f { p with pinCount := p.pinCount - 1, isDirty := isDirty }
          replacer := if p.pinCount - 1 == 0 then bp.replacer.Insert f
                      else bp.replacer }))) := by
  have hp : (pid == INVALID_PAGE_ID) = false := by simp [hpid]
  constructor
  · intro h
    simp [BufferPoolManager.UnpinPage, hp, h]
  · intro f p hfind hget
    constructor
    · intro hle
      simp [BufferPoolManager.UnpinPage, hp, hfind, hget, hle]
    · intro hpos
      have hle : ¬ (p.pinCount ≤ 0) := by omega
      simp [BufferPoolManager.UnpinPage, hp, hfind, hget, hle]

/-- Witness for the amended UnpinPage contract: on the concrete pool
`c2wPool` (page 1 resident in frame 0, pin count 1, dirty), UnpinPage(1,
false) succeeds, decrements the pin count to 0, overwrites the dirty flag
with false and inserts frame 0 into the replacer. -/
theorem UnpinPage_spec_witness :
    c2wPool.pageTable.Find 1 = some 0 ∧ (0 : Int) < c2wPage.pinCount ∧
    c2wPool.UnpinPage 1 false = some (true,
      { c2wPool with
        pages := c2wPool.pages.set 0
          { c2wPage with pinCount := c2wPage.pinCount - 1, isDirty := false }
        replacer := if c2wPage.pinCount - 1 == 0 then c2wPool.replacer.Insert 0
                    else c2wPool.replacer }) := by
  refine ⟨rfl, by decide, ?_⟩
  exact ((UnpinPage_spec c2wPool 1 false (by decide)).2 0 c2wPage rfl rfl).2 (by decide)

/-- C10: DeletePage of a page id absent from the page table returns false
with the entire pool state (page table, frames, free list, replacer, disk)
unchanged — in particular `DiskManager::DeallocatePage` is not invoked —
and in general the deallocation log grows by exactly the deleted page id
precisely when DeletePage returns true. -/
theorem DeletePage_spec {D : Type} [Inhabited D] (bp : BufferPoolManager D)
    (pid : PageId) (hpid : pid ≠ INVALID_PAGE_ID) :
    (bp.pageTable.Find pid = none → bp.DeletePage pid = some (false, bp)) ∧
    (∀ b bp', bp.DeletePage pid = some (b, bp') →
      ((bp'.disk.deallocLog = bp.disk.deallocLog ++ [pid] ↔ b = true) ∧
       (b = false → bp' = bp))) := by
  have hp : (pid == INVALID_PAGE_ID) = false := by simp [hpid]
  have hlog : ¬ (bp.disk.deallocLog = bp.disk.deallocLog ++ [pid]) := by
    intro h
    have := congrArg List.length h
    simp at this
  constructor
  · intro h
    simp [BufferPoolManager.DeletePage, hp, h]
  · intro b bp' hdel
    unfold BufferPoolManager.DeletePage at hdel
    rw [hp] at hdel
    simp only [Bool.false_eq_true, if_false] at hdel
    split at hdel
    · simp only [Option.some.injEq, Prod.mk.injEq] at hdel
      obtain ⟨hb, hbp⟩ := hdel
      subst hb; subst hbp
      exact ⟨by simp [hlog], fun _ => rfl⟩
    · split at hdel
      · exact absurd hdel (by simp)
      · split at hdel
        · simp only [Option.some.injEq, Prod.mk.injEq] at hdel
          obtain ⟨hb, hbp⟩ := hdel
          subst hb; subst hbp
          exact ⟨by simp [hlog], fun _ => rfl⟩
        · simp only [Option.some.injEq, Prod.mk.injEq] at hdel
          obtain ⟨hb, hbp⟩ := hdel
          subst hb
          constructor
          · rw [← hbp]
            simp [DiskManager.DeallocatePage]
          · intro hfalse; cases hfalse

/-- Witness for the DeletePage contract: page 7 is not resident in the fresh
one-frame pool, and DeletePage(7) returns false leaving the pool (and the
deallocation log) untouched. -/
theorem DeletePage_spec_witness :
    onePool.pageTable.Find 7 = none ∧ onePool.DeletePage 7 = some (false, onePool) :=
  ⟨rfl, (DeletePage_spec onePool 7 (by decide)).1 rfl⟩

/-- C5: splitting a full leaf.  `MoveHalfTo` leaves exactly
`floor(size / 2)` entries (the lower half) in the old leaf and moves the
rest to the new leaf; the triggering pair is placed in the old leaf iff the
key compares less than the new leaf's key 0 (and in the new leaf otherwise);
and the key promoted to the parent is the new leaf's key 0, which the
triggering insertion does not displace. -/
theorem leaf_split_spec (l : LeafPage) (newPageId : PageId) (key : Int) (value : Nat)
    (hfull : l.entries.length = l.maxSize) (hmax : 2 ≤ l.maxSize)
    (hkey : key ∉ l.entries.map Prod.fst) :
    ((l.MoveHalfTo (LeafPage.Init newPageId l.parentPageId)).1.entries
        = l.entries.take (l.entries.length / 2)) ∧
    ((l.MoveHalfTo (LeafPage.Init newPageId l.parentPageId)).2.entries
        = l.entries.drop (l.entries.length / 2)) ∧
    ((l.MoveHalfTo (LeafPage.Init newPageId l.parentPageId)).1.entries.length
        = l.entries.length / 2) ∧
    ((l.MoveHalfTo (LeafPage.Init newPageId l.parentPageId)).2.entries.length
        = l.entries.length - l.entries.length / 2) ∧
    ((key ∈ (leafSplitOutcome l newPageId key value).1.entries.map Prod.fst)
        ↔ intCmp key ((l.MoveHalfTo (LeafPage.Init newPageId l.parentPageId)).2.KeyAt 0) < 0) ∧
    ((key ∈ (leafSplitOutcome l newPageId key value).2.1.entries.map Prod.fst)
        ↔ ¬ intCmp key ((l.MoveHalfTo (LeafPage.Init newPageId l.parentPageId)).2.KeyAt 0) < 0) ∧
    ((leafSplitOutcome l newPageId key value).2.2
        = (leafSplitOutcome l newPageId key value).2.1.KeyAt 0) ∧
    ((leafSplitOutcome l newPageId key value).2.2
        = (l.MoveHalfTo (LeafPage.Init newPageId l.parentPageId)).2.KeyAt 0) := by
  have hpos : 0 < l.entries.length := by omega
  have hhalf_lt : l.entries.length / 2 < l.entries.length :=
    Nat.div_lt_self hpos (by omega)
  set n1 := (l.MoveHalfTo (LeafPage.Init newPageId l.parentPageId)).2 with hn1
  set l1 := (l.MoveHalfTo (LeafPage.Init newPageId l.parentPageId)).1 with hl1
  have hM1 : l1.entries = l.entries.take (l.entries.length / 2) := rfl
  have hM2 : n1.entries = l.entries.drop (l.entries.length / 2) := rfl
  have hn1ne : n1.entries ≠ [] := by
    rw [hM2]
    intro h
    have := congrArg List.length h
    simp at this
    omega
  have hkey_l1 : key ∉ l1.entries.map Prod.fst := by
    rw [hM1]
    intro hmem
    exact hkey (List.map_subset Prod.fst (List.take_subset _ _) hmem)
  have hkey_n1 : key ∉ n1.entries.map Prod.fst := by
    rw [hM2]
    intro hmem
    exact hkey (List.map_subset Prod.fst (List.drop_subset _ _) hmem)
  have hk0mem : n1.KeyAt 0 ∈ n1.entries.map Prod.fst := by
    obtain ⟨e0, rest, hE⟩ := List.exists_cons_of_ne_nil hn1ne
    have : n1.KeyAt 0 = e0.1 := by simp [LeafPage.KeyAt, LeafPage.entryAt?, hE]
    rw [this, hE]
    simp
  refine ⟨hM1, hM2, ?_, ?_, ?_⟩
  · rw [hM1]; simp; omega
  · rw [hM2]; simp
  by_cases hc : intCmp key (n1.KeyAt 0) < 0
  · have hout : leafSplitOutcome l newPageId key value
        = ({ l1.Insert key value with nextPageId := newPageId }, n1, n1.KeyAt 0) := by
      simp only [leafSplitOutcome]
      rw [← hl1, ← hn1, if_pos hc]
    rw [hout]
    refine ⟨?_, ?_, rfl, rfl⟩
    · simpa using iff_of_true (LeafPage.mem_keys_Insert l1 key value hkey_l1) hc
    · exact iff_of_false hkey_n1 (by simpa using hc)
  · have hout : leafSplitOutcome l newPageId key value
        = ({ l1 with nextPageId := newPageId }, n1.Insert key value,
           (n1.Insert key value).KeyAt 0) := by
      simp only [leafSplitOutcome]
      rw [← hl1, ← hn1, if_neg hc]
    have hk0lt : n1.KeyAt 0 < key := by
      rw [intCmp_lt_zero_iff] at hc
      have : n1.KeyAt 0 ≠ key := by
        intro h
        exact hkey_n1 (h ▸ hk0mem)
      omega
    have hpreserve : (n1.Insert key value).KeyAt 0 = n1.KeyAt 0 :=
      LeafPage.KeyAt_zero_Insert_of_lt n1 key value hn1ne hk0lt
    rw [hout]
    refine ⟨?_, ?_, rfl, hpreserve⟩
    · simpa using iff_of_false hkey_l1 hc
    · exact iff_of_true (LeafPage.mem_keys_Insert n1 key value hkey_n1) hc

/-- Witness for the leaf-split theorem: splitting the full leaf
[1, 2, 3, 4] of `max_size` 4 with the triggering key 5 keeps [1, 2], moves
[3, 4], places 5 in the new leaf, and promotes key 3. -/
theorem leaf_split_spec_witness :
    c5leaf.entries.length = c5leaf.maxSize ∧ 2 ≤ c5leaf.maxSize ∧
    ((5 : Int) ∉ c5leaf.entries.map Prod.fst) ∧
    ((c5leaf.MoveHalfTo (LeafPage.Init 2 c5leaf.parentPageId)).1.entries
        = c5leaf.entries.take (c5leaf.entries.length / 2)) ∧
    (((5 : Int) ∈ (leafSplitOutcome c5leaf 2 5 5).2.1.entries.map Prod.fst)
        ↔ ¬ intCmp 5 ((c5leaf.MoveHalfTo (LeafPage.Init 2 c5leaf.parentPageId)).2.KeyAt 0) < 0) ∧
    ((leafSplitOutcome c5leaf 2 5 5).2.2
        = (c5leaf.MoveHalfTo (LeafPage.Init 2 c5leaf.parentPageId)).2.KeyAt 0) := by
  have h := leaf_split_spec c5leaf 2 5 5 rfl (by decide) (by decide)
  exact ⟨rfl, by decide, by decide, h.1, h.2.2.2.2.2.1, h.2.2.2.2.2.2.2⟩

/-- Folding `set`s over a list of indices leaves unlisted positions
unchanged. -/
theorem getD_foldl_set_of_not_mem (idxs : List Nat) (dir : List Nat) (nb i : Nat)
    (hnm : i ∉ idxs) :
    (idxs.foldl (fun d j => d.set j nb) dir).getD i 0 = dir.getD i 0 := by
  induction idxs generalizing dir with
  | nil => rfl
  | cons j rest ih =>
    simp only [List.mem_cons, not_or] at hnm
    simp only [List.foldl_cons]
    rw [ih _ hnm.2]
    simp only [List.getD_eq_getElem?_getD]
    rw [List.getElem?_set_ne (Ne.symm hnm.1)]

/-- Folding `set`s preserves the directory length. -/
theorem length_foldl_set (idxs : List Nat) (dir : List Nat) (nb : Nat) :
    (idxs.foldl (fun d j => d.set j nb) dir).length = dir.length := by
  induction idxs generalizing dir with
  | nil => rfl
  | cons j rest ih =>
    simp only [List.foldl_cons]
    rw [ih]
    simp

/-- Folding `set`s over a list of indices writes the new value at every
listed (in-range) position. -/
theorem getD_foldl_set_of_mem (idxs : List Nat) (dir : List Nat) (nb i : Nat)
    (hi : i < dir.length) (hmem : i ∈ idxs) :
    (idxs.foldl (fun d j => d.set j nb) dir).getD i 0 = nb := by
  induction idxs generalizing dir with
  | nil => cases hmem
  | cons j rest ih =>
    simp only [List.foldl_cons]
    by_cases hr : i ∈ rest
    · exact ih _ (by simpa using hi) hr
    · have hij : i = j := by
        rcases List.mem_cons.mp hmem with h | h
        · exact h
        · exact absurd h hr
      subst hij
      rw [getD_foldl_set_of_not_mem rest _ nb i hr]
      simp only [List.getD_eq_getElem?_getD]
      rw [List.getElem?_set_self hi]
      rfl

/-- The split phase in closed form: for an in-range directory index, the
resulting state doubles conditionally, replaces the overflowing bucket by
its cleared depth-incremented version, appends the one new bucket, bumps
`num_buckets_`, and reassigns the upper half of the referencing indices;
the snapshot is the overflowing bucket's items. -/
theorem splitStep_eq (s : ExtendibleHash Int Nat) (index : Nat)
    (hidx : index < s.dir.length) :
    s.splitStep index =
      ({ s.doubleDirIfNeeded index with
          buckets := (s.buckets.set (s.dir.getD index 0)
              (Bucket.Clear { s.EntryAt index with
                localDepth := (s.EntryAt index).localDepth + 1 }))
            ++ [Bucket.new s.bucketCapacity ((s.EntryAt index).localDepth + 1)]
          numBuckets := s.numBuckets + 1
          dir :=
            (let d := s.doubleDirIfNeeded index
             let refs := (List.range d.dir.length).filter
               (fun i => d.dir.getD i 0 == s.dir.getD index 0)
             (refs.drop (refs.length / 2)).foldl
               (fun dd j => dd.set j s.buckets.length) d.dir) },
        (s.EntryAt index).GetItems) := by
  have hdbuckets : (s.doubleDirIfNeeded index).buckets = s.buckets := by
    unfold ExtendibleHash.doubleDirIfNeeded
    split <;> rfl
  have hdnum : (s.doubleDirIfNeeded index).numBuckets = s.numBuckets := by
    unfold ExtendibleHash.doubleDirIfNeeded
    split <;> rfl
  have hbid : (s.doubleDirIfNeeded index).dir.getD index 0 = s.dir.getD index 0 := by
    unfold ExtendibleHash.doubleDirIfNeeded
    split
    · simp only [List.getD_eq_getElem?_getD]
      rw [List.getElem?_append_left hidx]
    · rfl
  simp only [ExtendibleHash.splitStep, hdbuckets, hbid, hdnum]
  simp only [ExtendibleHash.EntryAt, List.set_set, List.length_set]
  rfl

/-- C6: the split protocol of `ExtendibleHash::Insert` on a full routed
bucket.  The directory is doubled — appending a copy of every slot in order,
so slot `i + old_size` initially references the same bucket as slot `i` —
with `global_depth` incremented, exactly when the overflowing bucket's local
depth equals the global depth; the overflowing bucket's local depth is
incremented (and its slots cleared for reinsertion); exactly one new empty
bucket with the same (incremented) local depth is allocated; the directory
indices referencing the overflowing bucket, in increasing order, have their
upper half reassigned to the new bucket and nothing else changes in the
directory; and `Insert` equals reinserting the snapshotted items and then
the triggering pair into the split state. -/
theorem extendible_hash_split_spec (s : ExtendibleHash Int Nat) (key : Int)
    (value : Nat) (fuel : Nat)
    (hdir : 0 < s.dir.length)
    (harena : ∀ i ∈ s.dir, i < s.buckets.length)
    (hfull : (s.EntryAt (s.HashKey key)).Full = true) :
    ((s.EntryAt (s.HashKey key)).localDepth = s.globalDepth →
      (s.doubleDirIfNeeded (s.HashKey key)).globalDepth = s.globalDepth + 1 ∧
      (s.doubleDirIfNeeded (s.HashKey key)).dir = s.dir ++ s.dir ∧
      ∀ i < s.dir.length,
        (s.doubleDirIfNeeded (s.HashKey key)).dir.getD (i + s.dir.length) 0
          = s.dir.getD i 0 ∧
        (s.doubleDirIfNeeded (s.HashKey key)).dir.getD i 0 = s.dir.getD i 0) ∧
    ((s.EntryAt (s.HashKey key)).localDepth ≠ s.globalDepth →
      s.doubleDirIfNeeded (s.HashKey key) = s) ∧
    ((s.splitStep (s.HashKey key)).1.buckets.getD (s.dir.getD (s.HashKey key) 0) default
      = Bucket.Clear { s.EntryAt (s.HashKey key) with
          localDepth := (s.EntryAt (s.HashKey key)).localDepth + 1 }) ∧
    ((s.splitStep (s.HashKey key)).1.buckets.length = s.buckets.length + 1) ∧
    ((s.splitStep (s.HashKey key)).1.buckets.getD s.buckets.length default
      = Bucket.new s.bucketCapacity ((s.EntryAt (s.HashKey key)).localDepth + 1)) ∧
    ((s.splitStep (s.HashKey key)).1.numBuckets = s.numBuckets + 1) ∧
    (let d := s.doubleDirIfNeeded (s.HashKey key)
     let refs := (List.range d.dir.length).filter
       (fun i => d.dir.getD i 0 == s.dir.getD (s.HashKey key) 0)
     List.Pairwise (· < ·) refs ∧
     (∀ i, i ∈ refs ↔ i < d.dir.length ∧ d.dir.getD i 0 = s.dir.getD (s.HashKey key) 0) ∧
     (∀ i ∈ refs.drop (refs.length / 2),
        (s.splitStep (s.HashKey key)).1.dir.getD i 0 = s.buckets.length) ∧
     (∀ i < d.dir.length, i ∉ refs.drop (refs.length / 2) →
        (s.splitStep (s.HashKey key)).1.dir.getD i 0 = d.dir.getD i 0)) ∧
    ((s.splitStep (s.HashKey key)).2 = (s.EntryAt (s.HashKey key)).GetItems) ∧
    (ExtendibleHash.insertFuel (fuel + 1) s key value
      = ((s.splitStep (s.HashKey key)).2.foldlM
            (fun st kv => ExtendibleHash.insertFuel fuel st kv.1 kv.2)
            (s.splitStep (s.HashKey key)).1).bind
          (fun st => ExtendibleHash.insertFuel fuel st key value)) := by
  have hidx : s.HashKey key < s.dir.length := Nat.mod_lt _ hdir
  have hbid_lt : s.dir.getD (s.HashKey key) 0 < s.buckets.length := by
    apply harena
    have : s.dir.getD (s.HashKey key) 0 = s.dir[s.HashKey key] := by
      simp [List.getD_eq_getElem?_getD, List.getElem?_eq_getElem hidx]
    rw [this]
    exact List.getElem_mem hidx
  have hspl := splitStep_eq s (s.HashKey key) hidx
  refine ⟨?_, ?_, ?_, ?_, ?_, ?_, ?_, ?_, ?_⟩
  · intro h
    have hcond : ((s.EntryAt (s.HashKey key)).localDepth == s.globalDepth) = true :=
      beq_iff_eq.mpr h
    refine ⟨?_, ?_, ?_⟩
    · unfold ExtendibleHash.doubleDirIfNeeded
      rw [if_pos hcond]
    · unfold ExtendibleHash.doubleDirIfNeeded
      rw [if_pos hcond]
    · intro i hi
      unfold ExtendibleHash.doubleDirIfNeeded
      rw [if_pos hcond]
      constructor
      · simp only [List.getD_eq_getElem?_getD]
        rw [List.getElem?_append_right (by omega)]
        simp
      · simp only [List.getD_eq_getElem?_getD]
        rw [List.getElem?_append_left hi]
  · intro h
    have hcond : ((s.EntryAt (s.HashKey key)).localDepth == s.globalDepth) = false := by
      simp [h]
    unfold ExtendibleHash.doubleDirIfNeeded
    rw [if_neg (by simp [hcond])]
  · rw [hspl]
    simp only [List.getD_eq_getElem?_getD]
    rw [List.getElem?_append_left (by simpa using hbid_lt)]
    rw [List.getElem?_set_self (by simpa using hbid_lt)]
    rfl
  · rw [hspl]
    simp
  · rw [hspl]
    simp only [List.getD_eq_getElem?_getD]
    rw [List.getElem?_append_right (by simp)]
    simp
  · rw [hspl]
  · refine ⟨?_, ?_, ?_, ?_⟩
    · exact (List.pairwise_lt_range _).filter _
    · intro i
      simp [List.mem_filter, List.mem_range]
    · intro i hi
      have himem : i ∈ (List.range (s.doubleDirIfNeeded (s.HashKey key)).dir.length).filter
          (fun i => (s.doubleDirIfNeeded (s.HashKey key)).dir.getD i 0
            == s.dir.getD (s.HashKey key) 0) := List.mem_of_mem_drop hi
      have hlt : i < (s.doubleDirIfNeeded (s.HashKey key)).dir.length := by
        have := (List.mem_filter.mp himem).1
        simpa using this
      rw [hspl]
      exact getD_foldl_set_of_mem _ _ _ _ hlt hi
    · intro i hlt hnm
      rw [hspl]
      exact getD_foldl_set_of_not_mem _ _ _ _ hnm
  · rw [hspl]
  · simp only [ExtendibleHash.insertFuel, hfull, if_true]
    cases hf : (s.splitStep (s.HashKey key)).2.foldlM
        (fun st kv => ExtendibleHash.insertFuel fuel st kv.1 kv.2)
        (s.splitStep (s.HashKey key)).1 with
    | none => simp [hf]
    | some st => simp [hf]
/-- Witness for the split-protocol theorem: the one-bucket capacity-2 table
with both slots full (local depth = global depth = 0) splits on Insert(7,
70): the directory doubles and the bucket count rises to 2. -/
theorem extendible_hash_split_spec_witness :
    (0 < fullHash.dir.length) ∧ (∀ i ∈ fullHash.dir, i < fullHash.buckets.length) ∧
    ((fullHash.EntryAt (fullHash.HashKey 7)).Full = true) ∧
    ((fullHash.doubleDirIfNeeded (fullHash.HashKey 7)).dir
        = fullHash.dir ++ fullHash.dir) ∧
    ((fullHash.splitStep (fullHash.HashKey 7)).1.buckets.length
        = fullHash.buckets.length + 1) ∧
    ((fullHash.splitStep (fullHash.HashKey 7)).1.numBuckets
        = fullHash.numBuckets + 1) := by
  have h := extendible_hash_split_spec fullHash 7 70 10 (by decide) (by decide) (by decide)
  exact ⟨by decide, by decide, by decide, (h.1 (by decide)).2.1,
    h.2.2.2.1, h.2.2.2.2.2.1⟩

end CmuDb
